import Mathlib

/-!
Verification of the pdf_harvest repository's core behaviors against its
natural-language specification.  The repository ships two variants of most
core functions: the batch script `core_pdf_scanner_batch.py` and the package
`src/pdfharvest/{http,pdfops,cache,orchestrator}.py`.  Both are embedded.

Python strings are modelled as lists of Unicode code points (`PyStr`),
filesystem paths as `(dir, stem, suffix)` triples, JSON documents at the
granularity the code inspects them, and network / PDF-parsing effects as
oracle parameters.
-/

namespace PdfHarvest

/-- A Python string, as its list of code points. -/
abbrev PyStr := List Nat

/-- Code points of a Lean string literal, used to write concrete examples. -/
def S (s : String) : PyStr := s.data.map Char.toNat

/-- ASCII whitespace removed by Python `str.strip()` (space, tab, LF, VT, FF, CR). -/
def pyIsSpace (n : Nat) : Bool := n == 32 || n == 9 || n == 10 || n == 11 || n == 12 || n == 13

/-- Python `str.strip()`: drop leading and trailing whitespace. -/
def pyStrip (s : PyStr) : PyStr :=
  ((s.dropWhile pyIsSpace).reverse.dropWhile pyIsSpace).reverse

/-- Worker for Python `str.replace(old, new)`: replace non-overlapping
occurrences of `old`, scanning left to right.  The `fuel` argument only makes
the recursion structural; `pyReplace` supplies `s.length`, which always
suffices since each step consumes at least one character.  (The guard
`old ≠ []` matches every call in the source, which only replaces the
nonempty patterns `"doi:"` / `"DOI:"`.) -/
def pyReplaceAux (old new : PyStr) : Nat → PyStr → PyStr
  | 0, s => s
  | _ + 1, [] => []
  | fuel + 1, c :: rest =>
    if old ≠ [] ∧ old.isPrefixOf (c :: rest) then
      new ++ pyReplaceAux old new fuel ((c :: rest).drop old.length)
    else
      c :: pyReplaceAux old new fuel rest

/-- Python `str.replace(old, new)`. -/
def pyReplace (old new s : PyStr) : PyStr := pyReplaceAux old new s.length s

/-- Characters admitted by the sanitizer's character class `[A-Za-z0-9._-]`. -/
def goodChar (n : Nat) : Bool :=
  (65 ≤ n && n ≤ 90) || (97 ≤ n && n ≤ 122) || (48 ≤ n && n ≤ 57) ||
    n == 46 || n == 95 || n == 45

/-- The regex substitution `re.sub(r"[^A-Za-z0-9._-]+", "_", s)`: each maximal
run of disallowed characters becomes a single underscore (code point 95).
The flag records whether the previous character was part of a disallowed run. -/
def subBadAux : Bool → PyStr → PyStr
  | _, [] => []
  | prevBad, c :: rest =>
    if goodChar c then c :: subBadAux false rest
    else if prevBad then subBadAux true rest
    else 95 :: subBadAux true rest

/-- `sanitize_filename` from `core_pdf_scanner_batch.py`:
`s.strip().replace("doi:", "").replace("DOI:", "")` followed by
`re.sub(r"[^A-Za-z0-9._-]+", "_", s)`. -/
def sanitize_filename (s : PyStr) : PyStr :=
  subBadAux false (pyReplace (S "DOI:") [] (pyReplace (S "doi:") [] (pyStrip s)))

/-- `sanitize_doi` from `src/pdfharvest/cache.py` has the same body as
`sanitize_filename`. -/
def sanitize_doi (s : PyStr) : PyStr := sanitize_filename s

/-! ### Resilient HTTP client (`backoff_request`, both variants)

The outcome of each attempted request is an oracle `f : Nat → Att`.  Waits
are rationals in seconds.  A `Retry-After` header that is absent, or present
but empty (falsy in Python), is modelled as `none`. -/

/-- Outcome of one `client.request` call: a response with a status code and
optional `Retry-After` value, or a transport-level failure
(`httpx.RequestError`). -/
inductive Att where
  | resp : Nat → Option ℚ → Att
  | transport : Att

/-- How a `backoff_request` call ends: return of the response received on
attempt `i`, an exception raised on attempt `i` (status error or transport
error), or falling off the retry loop (`raise RuntimeError`). -/
inductive BkOut where
  | success : Nat → BkOut
  | raisedStatus : Nat → Nat → BkOut
  | raisedTransport : Nat → BkOut
  | exhausted : BkOut
deriving DecidableEq

/-- `r.status_code in (429, 500, 502, 503, 504)`. -/
def retryable (s : Nat) : Bool := s == 429 || s == 500 || s == 502 || s == 503 || s == 504

/-- The computed backoff wait `min(base * 2**i, 10.0)` with `base = 0.5`. -/
def backWait (i : Nat) : ℚ := min ((1/2 : ℚ) * 2 ^ i) 10

/-- The retry loop of `backoff_request` in `core_pdf_scanner_batch.py`:
retryable statuses honor `Retry-After` and sleep even on the last iteration;
`raise_for_status` errors are `httpx.HTTPError`s, so they are caught by the
`except httpx.HTTPError` clause and retried with the computed wait, raising
only on the last attempt.  `i` is the attempt index, the second argument the
number of loop iterations left; the result carries the list of sleeps. -/
def coreGo (f : Nat → Att) (i : Nat) : Nat → BkOut × List ℚ
  | 0 => (.exhausted, [])
  | rem + 1 =>
    match f i with
    | .transport =>
      if rem = 0 then (.raisedTransport i, [])
      else
        let r := coreGo f (i + 1) rem
        (r.1, backWait i :: r.2)
    | .resp s ra =>
      if retryable s then
        let w := match ra with | some q => q | none => backWait i
        let r := coreGo f (i + 1) rem
        (r.1, w :: r.2)
      else if 400 ≤ s then
        if rem = 0 then (.raisedStatus i s, [])
        else
          let r := coreGo f (i + 1) rem
          (r.1, backWait i :: r.2)
      else (.success i, [])

/-- The retry loop of `backoff_request` in `src/pdfharvest/http.py`: no
`Retry-After` handling, and only `httpx.RequestError` (transport errors) is
caught — an `HTTPStatusError` from `raise_for_status` propagates at once. -/
def httpGo (f : Nat → Att) (i : Nat) : Nat → BkOut × List ℚ
  | 0 => (.exhausted, [])
  | rem + 1 =>
    match f i with
    | .transport =>
      if rem = 0 then (.raisedTransport i, [])
      else
        let r := httpGo f (i + 1) rem
        (r.1, backWait i :: r.2)
    | .resp s _ =>
      if retryable s then
        let r := httpGo f (i + 1) rem
        (r.1, backWait i :: r.2)
      else if 400 ≤ s then (.raisedStatus i s, [])
      else (.success i, [])

/-- `backoff_request` from `core_pdf_scanner_batch.py` (`max_tries = 6`). -/
def backoff_request_core (f : Nat → Att) : BkOut × List ℚ := coreGo f 0 6

/-- `backoff_request` from `src/pdfharvest/http.py` (`max_tries = 6`). -/
def backoff_request_http (f : Nat → Att) : BkOut × List ℚ := httpGo f 0 6

/-- Number of requests issued for a given outcome (attempt indices are
0-based; `exhausted` means all 6 iterations ran). -/
def attemptsMade : BkOut → Nat
  | .success i => i + 1
  | .raisedStatus i _ => i + 1
  | .raisedTransport i => i + 1
  | .exhausted => 6

/-- Modelled from the spec: "Wait time before attempt *i* (0-indexed) is
`min(base * 2^i, cap)` seconds with `base = 0.5s`, `cap = 10s`, UNLESS the
response carries a `Retry-After` header, in which case that value overrides
the computed wait for that attempt." -/
def specWait (f : Nat → Att) (i : Nat) : ℚ :=
  match f i with
  | .resp _ (some q) => q
  | _ => min ((1/2 : ℚ) * 2 ^ i) 10

/-- The wait the batch script's loop actually sleeps after attempt `j`:
the `Retry-After` value only for a retryable status carrying one, else the
computed backoff. -/
def coreWaitAt (f : Nat → Att) (j : Nat) : ℚ :=
  match f j with
  | .resp s (some q) => if retryable s then q else backWait j
  | _ => backWait j

/-- The attempt index on which a backoff run ended, when it did not fall
off the loop. -/
def attIdx : BkOut → Option Nat
  | .success i => some i
  | .raisedStatus i _ => some i
  | .raisedTransport i => some i
  | .exhausted => none

/-! ### Casefolding and substring search -/

/-- ASCII fragment of Python `str.casefold()` / `str.lower()`: map `A`-`Z`
to `a`-`z`, leave everything else unchanged. -/
def cfChar (n : Nat) : Nat := if 65 ≤ n && n ≤ 90 then n + 32 else n

/-- Casefold a string. -/
def cfStr (s : PyStr) : PyStr := s.map cfChar

/-- Python substring containment `pat in hay`. -/
def subStr (pat : PyStr) : PyStr → Bool
  | [] => pat.isEmpty
  | c :: rest => pat.isPrefixOf (c :: rest) || subStr pat rest

/-! ### PDF downloader (`download_pdf`, both variants)

The response body is a chunk stream that either completes or is interrupted
by a transport error after delivering a prefix of its chunks. -/

/-- A streamed response body. -/
inductive Body where
  | ok : List (List Nat) → Body
  | interrupted : List (List Nat) → Body
deriving DecidableEq

/-- An HTTP response for a download: status, `Content-Type` header value,
and body stream. -/
structure Resp where
  status : Nat
  contentType : PyStr
  body : Body
deriving DecidableEq

/-- `b"%PDF"`. -/
def pdfMagic : List Nat := [37, 80, 68, 70]

/-- `download_pdf` from `core_pdf_scanner_batch.py`, acting on the contents
of the destination path (`none` = no file).  The body is written directly to
`out_path` with `open(out_path, "wb")`; a mid-stream transport error is
caught by the blanket `except` and leaves the partly-written file in place;
after a complete write the first four bytes are checked against `%PDF` and
the file is unlinked on mismatch. -/
def download_pdf_core (r : Resp) (dest : Option (List Nat)) : Bool × Option (List Nat) :=
  if 400 ≤ r.status then (false, dest)
  else
    match r.body with
    | .interrupted chunks => (false, some chunks.flatten)
    | .ok chunks =>
      let content := chunks.flatten
      if content.take 4 = pdfMagic then (true, some content)
      else (false, none)

/-- The two file slots `download_pdf` from `src/pdfharvest/http.py` touches:
the uuid-suffixed temporary file and the destination path. -/
structure Slots where
  temp : Option (List Nat)
  dest : Option (List Nat)
deriving DecidableEq

/-- `download_pdf` from `src/pdfharvest/http.py`: reject non-200 statuses
and `Content-Type` values not containing `"pdf"` (lower-cased) before
writing anything; stream the body to the temporary file; on completion
publish it at the destination with `temp_path.replace(out_path)`.  A
mid-stream error leaves only the temporary file. -/
def download_pdf_http (r : Resp) (s : Slots) : Bool × Slots :=
  if r.status ≠ 200 then (false, s)
  else if ¬ (subStr (S "pdf") (cfStr r.contentType) = true) then (false, s)
  else
    match r.body with
    | .interrupted chunks => (false, { s with temp := some chunks.flatten })
    | .ok chunks => (true, { temp := none, dest := some chunks.flatten })

/-! ### JSON cache reads (both variants)

A cache file on disk is absent, or holds bytes that are not valid UTF-8
(`Path.read_text(encoding="utf-8")` raises `UnicodeDecodeError`), or text
that is not valid JSON (`json.loads` raises `json.JSONDecodeError`), or a
decodable document of type `α`.  `Except.error ()` models an uncaught
exception; for `read_cache_json` the value `none` models Python `None` and
for `cache_read` it models the empty dict `{}`. -/

/-- On-disk state of a cache file. -/
inductive FileData (α : Type) where
  | absent : FileData α
  | badBytes : FileData α
  | badJson : FileData α
  | json : α → FileData α
deriving DecidableEq

/-- `read_cache_json` from `core_pdf_scanner_batch.py`: returns `None` when
the file does not exist, and `try: json.loads(...) except Exception: None`
otherwise — the blanket `except` also catches decoding errors. -/
def read_cache_json {α : Type} : FileData α → Except Unit (Option α)
  | .absent => .ok none
  | .badBytes => .ok none
  | .badJson => .ok none
  | .json d => .ok (some d)

/-- `cache_read` from `src/pdfharvest/cache.py`: returns `{}` when the file
does not exist, catches only `json.JSONDecodeError` (returning `{}`), and
lets a `UnicodeDecodeError` from `read_text(encoding="utf-8")` propagate. -/
def cache_read {α : Type} : FileData α → Except Unit (Option α)
  | .absent => .ok none
  | .badBytes => .error ()
  | .badJson => .ok none
  | .json d => .ok (some d)

/-! ### Text matcher (`search_pdf`, identical in both variants)

A PDF is either unreadable as a whole (`PdfReader` raises) or a list of
pages; a page is `none` when `extract_text()` raises or returns `None`
(both produce the empty string in the source), else its extracted text. -/

/-- A PDF as seen by `search_pdf`. -/
inductive PyPdf where
  | corrupt : PyPdf
  | doc : List (Option PyStr) → PyPdf

/-- The result dictionary `{"found": ..., "matches": ..., "pages": ...}`. -/
structure MatchRes where
  found : Bool
  matches' : List PyStr
  pages : List Nat
deriving DecidableEq

/-- Python string `<=` (lexicographic by code point, shorter prefix first),
used to model `sorted` on the set of matched needles. -/
def lexLe : PyStr → PyStr → Bool
  | [], _ => true
  | _ :: _, [] => false
  | a :: as, b :: bs => if a = b then lexLe as bs else decide (a < b)

/-- `hits.add(n)`: add to the set, modelled as append-if-absent. -/
def addHit (h : PyStr) (hs : List PyStr) : List PyStr :=
  if h ∈ hs then hs else hs ++ [h]

/-- The inner `for n in ns` loop over one page's text: accumulate hits and
whether any needle occurred on this page. -/
def pageScan (ns : List PyStr) (txt : PyStr) (hits : List PyStr) : List PyStr × Bool :=
  ns.foldl (fun acc n => if subStr n txt then (addHit n acc.1, true) else acc)
    (hits, false)

/-- The `for i, p in enumerate(reader.pages)` loop: skip pages with empty
extracted text, collect hits, and record 1-based page numbers with a hit. -/
def scanPages (ns : List PyStr) : List (Option PyStr) → Nat → List PyStr → List Nat →
    List PyStr × List Nat
  | [], _, hits, pages => (hits, pages)
  | p :: rest, i, hits, pages =>
    let txt := cfStr (p.getD [])
    if txt = [] then scanPages ns rest (i + 1) hits pages
    else
      let sc := pageScan ns txt hits
      scanPages ns rest (i + 1) sc.1 (if sc.2 then pages ++ [i + 1] else pages)

/-- `search_pdf` (identical in `core_pdf_scanner_batch.py` and
`src/pdfharvest/pdfops.py`): casefold the needles, scan the pages, and if
any hit was found return it with `sorted(hits)` and `sorted(pages)`;
otherwise (including whole-document parse failure) the default result. -/
def search_pdf (pdf : PyPdf) (needles : List PyStr) : MatchRes :=
  match pdf with
  | .corrupt => ⟨false, [], []⟩
  | .doc ps =>
    let ns := needles.map cfStr
    let hp := scanPages ns ps 0 [] []
    if hp.1 ≠ [] then
      ⟨true, List.insertionSort (fun a b => lexLe a b = true) hp.1,
        List.insertionSort (fun a b => a ≤ b) hp.2⟩
    else ⟨false, [], []⟩

/-! ### Paths and the atomic router (`move_pdf_atomic`)

A path is a `(directory, stem, suffix)` triple; the file name is
`stem ++ suffix` (in Python, `Path.name = Path.stem + Path.suffix`).  A
directory tree is the list of existing file paths.  `move_pdf_atomic` moves
`src` into `dst_dir` under its own name, or under `stem_k suffix` for the
first `k ≥ 1` that is unoccupied. -/

/-- A filesystem path, split the way `move_pdf_atomic` uses it. -/
structure PathS where
  dir : PyStr
  stem : PyStr
  suf : PyStr
deriving DecidableEq

/-- Little-endian decimal digits of `n`; `fuel ≥ n` makes the recursion
structural without changing the value. -/
def natDigitsRev (fuel n : Nat) : List Nat :=
  match fuel with
  | 0 => []
  | fuel + 1 => if n = 0 then [] else n % 10 :: natDigitsRev fuel (n / 10)

/-- Value of a little-endian digit list (used to prove `natChars` injective). -/
def ofDigitsLE : List Nat → Nat
  | [] => 0
  | d :: ds => d + 10 * ofDigitsLE ds

/-- Decimal representation of `n` as code points, as produced by Python's
f-string `f"{stem}_{k}{suf}"` for the counter `k`. -/
def natChars (n : Nat) : PyStr :=
  if n = 0 then [48] else ((natDigitsRev n n).reverse).map (fun d => 48 + d)

/-- The collision candidate `dst_dir / f"{stem}_{k}{suf}"`. -/
def candName (src : PathS) (dstDir : PyStr) (k : Nat) : PathS :=
  ⟨dstDir, src.stem ++ 95 :: natChars k, src.suf⟩

/-- The `while True` collision loop: return the first `k` whose candidate
name is unoccupied.  The fuel only bounds the recursion; `move_pdf_atomic`
passes `fs.length + 1`, which always suffices (candidate names are pairwise
distinct, so at most `fs.length` of them can be occupied). -/
def findFree (fs : List PathS) (src : PathS) (dstDir : PyStr) : Nat → Nat → Nat
  | k, 0 => k
  | k, fuel + 1 => if candName src dstDir k ∈ fs then findFree fs src dstDir (k + 1) fuel else k

/-- `move_pdf_atomic` (identical in both variants) acting on the list of
existing paths: move `src` to `dst_dir / src.name` when that is free, else
to the first free `stem_k suffix`; the result is the final path and the new
list of existing paths (`Path.replace` removes the source). -/
def move_pdf_atomic (fs : List PathS) (src : PathS) (dstDir : PyStr) : PathS × List PathS :=
  let target : PathS := ⟨dstDir, src.stem, src.suf⟩
  if target ∈ fs then
    let fin := candName src dstDir (findFree fs src dstDir 1 (fs.length + 1))
    (fin, fin :: fs.erase src)
  else (target, target :: fs.erase src)

/-! ### Upstream JSON documents and `best_pdf_url`

Crossref's `message` and Unpaywall's response are modelled at the
granularity the code inspects them.  `Option` models a key that is absent
or has a falsy value (Python `None` / `""` / `[]`); a whole document that is
the falsy `{}` is the `emptyDoc` constructor. -/

/-- An open-access location dictionary. -/
structure OALoc where
  urlForPdf : Option PyStr
  url : Option PyStr
  license : Option PyStr
deriving DecidableEq

/-- An Unpaywall document with the inspected keys. -/
structure OADoc where
  isOa : Option Bool
  best : Option OALoc
  locs : List OALoc
deriving DecidableEq

/-- A cached / fetched Unpaywall value: the empty dict or a document. -/
inductive UAVal where
  | emptyDoc : UAVal
  | doc : OADoc → UAVal
deriving DecidableEq

/-- `loc.get("url_for_pdf") or loc.get("url")`. -/
def locUrl (l : OALoc) : Option PyStr :=
  match l.urlForPdf with
  | some u => some u
  | none => l.url

/-- The `for loc in ua.get("oa_locations") or []` fallback loop. -/
def firstLocUrl : List OALoc → Option PyStr
  | [] => none
  | l :: ls =>
    match locUrl l with
    | some u => some u
    | none => firstLocUrl ls

/-- `best_pdf_url` (same selection logic in both variants): `None` on a
falsy document, else the best location's PDF-or-page URL, else the first
candidate location offering one. -/
def best_pdf_url : UAVal → Option PyStr
  | .emptyDoc => none
  | .doc d =>
    match locUrl (d.best.getD ⟨none, none, none⟩) with
    | some u => some u
    | none => firstLocUrl d.locs

/-- A Crossref `message` document with the inspected keys.  `year` models
the value extracted from `issued.date-parts`. -/
structure MetaDoc where
  title : List PyStr
  container : List PyStr
  year : Option Int
  authors : List (PyStr × PyStr)
  publisher : PyStr
  typ : PyStr
  url : PyStr
deriving DecidableEq

/-- A cached / fetched Crossref value: the empty dict or a document. -/
inductive MetaVal where
  | emptyDoc : MetaVal
  | doc : MetaDoc → MetaVal
deriving DecidableEq

/-- Field access with `dict.get` defaults: the empty dict reads as a
document whose every field is empty/absent. -/
def MetaVal.toDoc : MetaVal → MetaDoc
  | .emptyDoc => ⟨[], [], none, [], [], [], []⟩
  | .doc m => m

/-- `sep.join(xs)`. -/
def joinWith (sep : PyStr) (xs : List PyStr) : PyStr :=
  (List.intersperse sep xs).flatten

/-! ### Result rows and the two pipeline stages

`ResultRow` fields as built by `prepare_one` in
`core_pdf_scanner_batch.py`; `temp`/`finalPath` are `none` for the empty
string (Python truthiness of `""`). -/

/-- A ResultRow of the batch script. -/
structure Row where
  doi : PyStr
  title : PyStr
  journal : PyStr
  year : Option Int
  authors : PyStr
  publisher : PyStr
  typ : PyStr
  crossrefUrl : PyStr
  isOa : Option Bool
  oaLicense : Option PyStr
  pdfUrl : PyStr
  temp : Option PathS
  finalPath : Option PathS
  mfound : Bool
  mstrings : PyStr
  mpages : PyStr
deriving DecidableEq

/-- The configuration slice Stage 2 reads. -/
structure S2Cfg where
  cacheEnabled : Bool
  forceRefresh : Bool
  foundDir : PyStr
  notfoundDir : PyStr
deriving DecidableEq

/-- One row of Stage 2 of `process_batch_pdfs` in
`core_pdf_scanner_batch.py`: skip rows without a staged path; read the match
cache (when enabled and not force-refreshing) else scan the staged PDF
(`scanOf` is the oracle for what `search_pdf` returns at a path); update the
row's match fields; then, only if the staged file still exists, route it
with `move_pdf_atomic`, record the final path and clear the staged path.
The third component reports whether a fresh scan happened (for cache writes
and call counting). -/
def stage2_step (cfg : S2Cfg) (mcache : PyStr → Option MatchRes) (scanOf : PathS → MatchRes)
    (fs : List PathS) (r : Row) : Row × List PathS × Bool :=
  match r.temp with
  | none => (r, fs, false)
  | some p =>
    let cached := if cfg.cacheEnabled && !cfg.forceRefresh then mcache r.doi else none
    let fresh := cached.isNone
    let res := cached.getD (scanOf p)
    let r1 : Row :=
      { r with
        mfound := res.found
        mstrings := joinWith (S ", ") res.matches'
        mpages := joinWith (S ", ") (res.pages.map natChars) }
    if p ∈ fs then
      let mv := move_pdf_atomic fs p (if r1.mfound then cfg.foundDir else cfg.notfoundDir)
      ({ r1 with finalPath := some mv.1, temp := none }, mv.2, fresh)
    else (r1, fs, fresh)

/-- Stage 2 over a batch's rows, threading the filesystem.  (In the source
all match-cache reads are collected before any cache write, so reads within
one stage never observe this stage's writes; the immutable `mcache` oracle
reflects that.) -/
def process_batch_pdfs (cfg : S2Cfg) (mcache : PyStr → Option MatchRes)
    (scanOf : PathS → MatchRes) : List Row → List PathS → List Row × List PathS
  | [], fs => ([], fs)
  | r :: rs, fs =>
    let st := stage2_step cfg mcache scanOf fs r
    let rest := process_batch_pdfs cfg mcache scanOf rs st.2.1
    (st.1 :: rest.1, rest.2)

/-- The filesystem state Stage 2 has threaded when it reaches row `i`. -/
def fsAt (cfg : S2Cfg) (mcache : PyStr → Option MatchRes) (scanOf : PathS → MatchRes) :
    List Row → List PathS → Nat → List PathS
  | _, fs, 0 => fs
  | [], fs, _ + 1 => fs
  | r :: rs, fs, i + 1 => fsAt cfg mcache scanOf rs (stage2_step cfg mcache scanOf fs r).2.1 i

/-! ### Stage 1 and a whole single-identifier run (for re-run idempotence)

Upstream behavior is a deterministic oracle: what a Crossref fetch, an
Unpaywall fetch, a download, and a PDF scan would yield.  `Except.error ()`
is a fetch that raises (after its retries).  Counters record how many times
each collaborator is invoked during one run. -/

/-- Effect of one `download_pdf` call of the batch script at the staged
target path, per `download_pdf_core`: success publishes the file; a bad
status writes nothing; a mid-stream interruption leaves a (partial) file; a
failed magic check unlinks the path. -/
inductive DlRes where
  | okPdf : DlRes
  | badStatus : DlRes
  | interrupted : DlRes
  | badMagic : DlRes
deriving DecidableEq

/-- Deterministic upstream oracle for one identifier. -/
structure Orc where
  crossref : Except Unit MetaVal
  unpaywall : Except Unit UAVal
  dlCore : DlRes
  dlHttp : Bool
  scan : MatchRes

/-- Configuration slice for a single-identifier run. -/
structure RunCfg where
  doi : PyStr
  cacheEnabled : Bool
  forceRefresh : Bool
  downloadsDir : PyStr
  foundDir : PyStr
  notfoundDir : PyStr
deriving DecidableEq

/-- Persistent state across runs: the three cache namespaces for this
identifier's key, and the set of existing files. -/
structure Sys where
  xref : Option MetaVal
  upw : Option UAVal
  mtc : Option MatchRes
  fs : List PathS
deriving DecidableEq

/-- Collaborator call counts for one run. -/
structure Cnt where
  nXref : Nat
  nUpw : Nat
  nDl : Nat
  nScan : Nat
deriving DecidableEq

/-- Add a path to the list of existing files. -/
def insertPath (p : PathS) (fs : List PathS) : List PathS :=
  if p ∈ fs then fs else p :: fs

/-- `prepare_one` from `core_pdf_scanner_batch.py` for one identifier:
consult the crossref/unpaywall caches when enabled and not force-refreshing
(`read_cache_json` returns `None` for a missing file, and a cached `{}` is
not `None`, so it is reused); on a miss fetch, caching the result only on
success (`except` sets `{}` without writing); select the PDF URL; reuse an
existing staged file unless force-refreshing, else download; flatten the
metadata into a row. -/
def prepare_one_core (cfg : RunCfg) (orc : Orc) (st : Sys) : Row × Sys × Cnt :=
  let cachedMeta := if cfg.cacheEnabled && !cfg.forceRefresh then st.xref else none
  let metaFetch :=
    match cachedMeta with
    | some m => (m, st.xref, 0)
    | none =>
      match orc.crossref with
      | .ok m => (m, if cfg.cacheEnabled then some m else st.xref, 1)
      | .error _ => (MetaVal.emptyDoc, st.xref, 1)
  let meta := metaFetch.1
  let cachedOa := if cfg.cacheEnabled && !cfg.forceRefresh then st.upw else none
  let oaFetch :=
    match cachedOa with
    | some d => (d, st.upw, 0)
    | none =>
      match orc.unpaywall with
      | .ok d => (d, if cfg.cacheEnabled then some d else st.upw, 1)
      | .error _ => (UAVal.emptyDoc, st.upw, 1)
  let oa := oaFetch.1
  let pdfUrl := best_pdf_url oa
  let tgt : PathS := ⟨cfg.downloadsDir, sanitize_filename cfg.doi, S ".pdf"⟩
  let dlStep :=
    match pdfUrl with
    | none => (none, st.fs, 0)
    | some _ =>
      if tgt ∈ st.fs && !cfg.forceRefresh then (some tgt, st.fs, 0)
      else
        match orc.dlCore with
        | .okPdf => (some tgt, insertPath tgt st.fs, 1)
        | .badStatus => (none, st.fs, 1)
        | .interrupted => (none, insertPath tgt st.fs, 1)
        | .badMagic => (none, st.fs.erase tgt, 1)
  let md := meta.toDoc
  let row : Row :=
    { doi := cfg.doi
      title := joinWith (S "; ") md.title
      journal := joinWith (S "; ") md.container
      year := md.year
      authors := joinWith (S "; ")
        (md.authors.map (fun a => pyStrip (a.1 ++ 32 :: a.2)))
      publisher := md.publisher
      typ := md.typ
      crossrefUrl := md.url
      isOa := match oa with | .emptyDoc => none | .doc d => d.isOa
      oaLicense := match oa with | .emptyDoc => none | .doc d => (d.best.getD ⟨none, none, none⟩).license
      pdfUrl := pdfUrl.getD []
      temp := dlStep.1
      finalPath := none
      mfound := false
      mstrings := []
      mpages := [] }
  (row, ⟨metaFetch.2.1, oaFetch.2.1, st.mtc, dlStep.2.1⟩,
    ⟨metaFetch.2.2, oaFetch.2.2, dlStep.2.2, 0⟩)

/-- One whole run (Stage 1 then Stage 2) of the batch script for a single
identifier: `prepare_one` then `process_batch_pdfs` over the one row, with
the match cache written back when a fresh scan ran and caching is enabled
(the source writes it whenever `cache_en`). -/
def run_once_core (cfg : RunCfg) (orc : Orc) (st : Sys) : Row × Sys × Cnt :=
  let p := prepare_one_core cfg orc st
  let st1 := p.2.1
  let s2cfg : S2Cfg := ⟨cfg.cacheEnabled, cfg.forceRefresh, cfg.foundDir, cfg.notfoundDir⟩
  let step := stage2_step s2cfg (fun d => if d = cfg.doi then st1.mtc else none)
    (fun _ => orc.scan) st1.fs p.1
  let fresh := step.2.2
  let mtc2 := if fresh && cfg.cacheEnabled then some orc.scan else st1.mtc
  (step.1, ⟨st1.xref, st1.upw, mtc2, step.2.1⟩,
    { p.2.2 with nScan := if fresh then 1 else 0 })

/-- A result row of the packaged orchestrator (`prepare_one` in
`src/pdfharvest/orchestrator.py` builds fewer fields). -/
structure RowOrch where
  doi : PyStr
  title : PyStr
  journal : PyStr
  authors : PyStr
  year : Option Int
  isOa : Option Bool
  pdfUrl : PyStr
  temp : Option PathS
  finalPath : Option PathS
  mfound : Bool
  mstrings : PyStr
  mpages : PyStr
deriving DecidableEq

/-- `prepare_one` from `src/pdfharvest/orchestrator.py`: `cache_read`
returns `{}` for a missing file, and the guard is `if not meta`, so an
absent *or empty* cached document triggers a fetch; the fetch result (the
packaged fetchers return `{}` on failure instead of raising) is always
written back with `cache_write`; when a PDF URL is present, it downloads
unconditionally (no check for an already-staged file). -/
def prepare_one_orch (cfg : RunCfg) (orc : Orc) (st : Sys) : RowOrch × Sys × Cnt :=
  let meta0 := st.xref.getD MetaVal.emptyDoc
  let metaFetch :=
    match meta0 with
    | .doc m => (MetaVal.doc m, st.xref, 0)
    | .emptyDoc =>
      let fetched := match orc.crossref with | .ok m => m | .error _ => MetaVal.emptyDoc
      (fetched, some fetched, 1)
  let meta := metaFetch.1
  let oa0 := st.upw.getD UAVal.emptyDoc
  let oaFetch :=
    match oa0 with
    | .doc d => (UAVal.doc d, st.upw, 0)
    | .emptyDoc =>
      let fetched := match orc.unpaywall with | .ok d => d | .error _ => UAVal.emptyDoc
      (fetched, some fetched, 1)
  let oa := oaFetch.1
  let pdfUrl := best_pdf_url oa
  let tgt : PathS := ⟨cfg.downloadsDir, sanitize_filename cfg.doi, S ".pdf"⟩
  let dlStep :=
    match pdfUrl with
    | none => (none, st.fs, 0)
    | some _ =>
      if orc.dlHttp then (some tgt, insertPath tgt st.fs, 1)
      else (none, st.fs, 1)
  let md := meta.toDoc
  let row : RowOrch :=
    { doi := cfg.doi
      title := joinWith (S "; ") md.title
      journal := joinWith (S "; ") md.container
      authors := joinWith (S "; ")
        (md.authors.map (fun a => pyStrip (a.1 ++ 32 :: a.2)))
      year := md.year
      isOa := match oa with | .emptyDoc => none | .doc d => d.isOa
      pdfUrl := pdfUrl.getD []
      temp := dlStep.1
      finalPath := none
      mfound := false
      mstrings := []
      mpages := [] }
  (row, ⟨metaFetch.2.1, oaFetch.2.1, st.mtc, dlStep.2.1⟩,
    ⟨metaFetch.2.2, oaFetch.2.2, dlStep.2.2, 0⟩)

end PdfHarvest

namespace PdfHarvest

lemma subBadAux_good {s : PyStr} {b : Bool} {c : Nat} (hc : c ∈ subBadAux b s) :
    goodChar c = true := by
  induction s generalizing b with
  | nil => simp [subBadAux] at hc
  | cons a rest ih =>
    by_cases hg : goodChar a
    · simp only [subBadAux, if_pos hg, List.mem_cons] at hc
      rcases hc with rfl | hc
      · exact hg
      · exact ih hc
    · cases b with
      | true => simp only [subBadAux, if_neg hg, if_pos rfl] at hc; exact ih hc
      | false =>
        simp only [subBadAux, if_neg hg, Bool.false_eq_true, if_false,
          List.mem_cons] at hc
        rcases hc with rfl | hc
        · decide
        · exact ih hc

lemma goodChar_not_space {c : Nat} (h : goodChar c = true) : pyIsSpace c = false := by
  simp only [goodChar, Bool.or_eq_true, Bool.and_eq_true, decide_eq_true_eq,
    beq_iff_eq] at h
  simp only [pyIsSpace, Bool.or_eq_false_iff, beq_eq_false_iff_ne]
  omega

lemma goodChar_ne_colon {c : Nat} (h : goodChar c = true) : c ≠ 58 := by
  simp only [goodChar, Bool.or_eq_true, Bool.and_eq_true, decide_eq_true_eq,
    beq_iff_eq] at h
  omega

lemma dropWhile_eq_self_of_none {p : Nat → Bool} {s : PyStr}
    (h : ∀ c ∈ s, p c = false) : s.dropWhile p = s := by
  cases s with
  | nil => rfl
  | cons a rest => simp [List.dropWhile, h a (by simp)]

lemma pyStrip_of_no_space {s : PyStr} (h : ∀ c ∈ s, pyIsSpace c = false) :
    pyStrip s = s := by
  unfold pyStrip
  rw [dropWhile_eq_self_of_none h, dropWhile_eq_self_of_none (by
    intro c hc; exact h c (List.mem_reverse.mp hc)), List.reverse_reverse]

lemma pyReplaceAux_eq_self {old : PyStr} {x : Nat} (hx : x ∈ old) :
    ∀ (fuel : Nat) (s : PyStr), x ∉ s → pyReplaceAux old [] fuel s = s := by
  intro fuel
  induction fuel with
  | zero => intro s _; rfl
  | succ fuel ih =>
    intro s hs
    cases s with
    | nil => rfl
    | cons c rest =>
      have hpre : old.isPrefixOf (c :: rest) = false := by
        by_contra hcon
        simp only [Bool.not_eq_false] at hcon
        have hsub := (List.isPrefixOf_iff_prefix.mp hcon).subset
        exact hs (hsub hx)
      simp only [pyReplaceAux, hpre, Bool.false_eq_true, and_false, if_neg,
        not_false_eq_true, List.cons.injEq, true_and]
      exact ih rest (fun hmem => hs (List.mem_cons_of_mem c hmem))

lemma pyReplace_eq_self (old : PyStr) (x : Nat) (hx : x ∈ old) {s : PyStr}
    (hs : x ∉ s) : pyReplace old [] s = s :=
  pyReplaceAux_eq_self hx s.length s hs

lemma subBadAux_of_good {s : PyStr} (h : ∀ c ∈ s, goodChar c = true) :
    ∀ b, subBadAux b s = s := by
  induction s with
  | nil => intro b; rfl
  | cons a rest ih =>
    intro b
    have ha : goodChar a = true := h a (by simp)
    simp only [subBadAux, if_pos ha, List.cons.injEq, true_and]
    exact ih (fun c hc => h c (List.mem_cons_of_mem a hc)) false

lemma sanitize_filename_good {s : PyStr} :
    ∀ c ∈ sanitize_filename s, goodChar c = true := by
  intro c hc
  exact subBadAux_good hc

/-- C9: `sanitize_filename` (and its copy `sanitize_doi`) is idempotent and
its output only contains characters from the class `[A-Za-z0-9._-]`. -/
theorem C9_sanitize_idempotent_and_charset (s : PyStr) :
    sanitize_filename (sanitize_filename s) = sanitize_filename s ∧
      ∀ c ∈ sanitize_filename s, goodChar c = true := by
  refine ⟨?_, sanitize_filename_good⟩
  have hgood : ∀ c ∈ sanitize_filename s, goodChar c = true := sanitize_filename_good
  have hnos : ∀ c ∈ sanitize_filename s, pyIsSpace c = false :=
    fun c hc => goodChar_not_space (hgood c hc)
  have hnoc : (58 : Nat) ∉ sanitize_filename s :=
    fun hmem => goodChar_ne_colon (hgood 58 hmem) rfl
  conv_lhs => rw [sanitize_filename]
  rw [pyStrip_of_no_space hnos,
    pyReplace_eq_self (S "doi:") 58 (by decide) hnoc,
    pyReplace_eq_self (S "DOI:") 58 (by decide) hnoc,
    subBadAux_of_good hgood]

lemma mem_of_getElemQ {l : List Nat} {n a : Nat} (h : l[n]? = some a) : a ∈ l := by
  obtain ⟨hlt, rfl⟩ := List.getElem?_eq_some.mp h
  exact List.getElem_mem hlt

lemma pat_not_prefix_cons {p0 p1 p2 c : Nat} {u T : PyStr}
    (hcu : (58 : Nat) ∉ c :: u) (hT : ∀ j, j < 3 → T[j]? ≠ some 58) :
    [p0, p1, p2, 58].isPrefixOf (c :: (u ++ T)) = false := by
  by_contra hcon
  simp only [Bool.not_eq_false] at hcon
  obtain ⟨t, ht⟩ := List.isPrefixOf_iff_prefix.mp hcon
  have h3 : (c :: (u ++ T))[3]? = some 58 := by
    rw [← ht]
    simp
  rw [List.getElem?_cons_succ] at h3
  by_cases hlen : 3 ≤ u.length
  · rw [List.getElem?_append, if_pos (by omega)] at h3
    exact hcu (List.mem_cons_of_mem c (mem_of_getElemQ h3))
  · rw [List.getElem?_append_right (by omega)] at h3
    exact hT (2 - u.length) (by omega) h3

lemma replace_deletes_mid {p0 p1 p2 : Nat}
    (h0 : p0 ≠ 58) (h1 : p1 ≠ 58) (h2 : p2 ≠ 58) :
    ∀ (u : PyStr) (fuel : Nat) (v : PyStr), (58 : Nat) ∉ u → (58 : Nat) ∉ v →
      (u ++ ([p0, p1, p2, 58] ++ v)).length ≤ fuel →
      pyReplaceAux [p0, p1, p2, 58] [] fuel (u ++ ([p0, p1, p2, 58] ++ v)) = u ++ v := by
  intro u
  induction u with
  | nil =>
    intro fuel v _ hv hf
    simp only [List.nil_append, List.length_append, List.length_cons] at hf ⊢
    obtain ⟨f, rfl⟩ : ∃ f, fuel = f + 1 := ⟨fuel - 1, by omega⟩
    have hpre : [p0, p1, p2, 58].isPrefixOf (p0 :: ([p1, p2, 58] ++ v)) = true := by
      apply List.isPrefixOf_iff_prefix.mpr
      simp only [List.cons_append, List.nil_append]
      exact (List.prefix_append [p0, p1, p2, 58] v).trans (by simp)
    show pyReplaceAux [p0, p1, p2, 58] [] (f + 1) (p0 :: ([p1, p2, 58] ++ v)) = v
    rw [pyReplaceAux, if_pos ⟨by simp, hpre⟩]
    simp only [List.nil_append, List.cons_append, List.length_cons, List.length_nil,
      List.drop_succ_cons, List.drop_zero]
    exact pyReplaceAux_eq_self (by simp) f v hv
  | cons c u ih =>
    intro fuel v hcu hv hf
    have hu : (58 : Nat) ∉ u := fun hm => hcu (List.mem_cons_of_mem c hm)
    simp only [List.cons_append, List.length_cons] at hf ⊢
    obtain ⟨f, rfl⟩ : ∃ f, fuel = f + 1 := ⟨fuel - 1, by omega⟩
    have hpre : [p0, p1, p2, 58].isPrefixOf (c :: (u ++ ([p0, p1, p2, 58] ++ v))) = false := by
      apply pat_not_prefix_cons hcu
      intro j hj
      interval_cases j <;> simp <;> omega
    rw [pyReplaceAux]
    rw [if_neg ?hc]
    case hc => exact fun hcon => (Bool.true_eq_false.mp (hpre ▸ hcon.2.symm))
    simp only [List.cons.injEq, true_and]
    exact ih f v hu hv (by simp at hf ⊢; omega)

lemma isPrefixOf_cons_ne {a b : Nat} (h : a ≠ b) (l t : PyStr) :
    (a :: l).isPrefixOf (b :: t) = false := by
  simp [List.isPrefixOf, h]

lemma replace_skips_other {p0 p1 p2 q0 q1 q2 : Nat}
    (hq0 : p0 ≠ q0) (hq1 : p0 ≠ q1) (hq2 : p0 ≠ q2) (h58 : p0 ≠ 58)
    (k0 : q0 ≠ 58) (k1 : q1 ≠ 58) (k2 : q2 ≠ 58) :
    ∀ (u : PyStr) (fuel : Nat) (v : PyStr), (58 : Nat) ∉ u → (58 : Nat) ∉ v →
      pyReplaceAux [p0, p1, p2, 58] [] fuel (u ++ ([q0, q1, q2, 58] ++ v)) =
        u ++ ([q0, q1, q2, 58] ++ v) := by
  intro u
  induction u with
  | nil =>
    intro fuel v _ hv
    simp only [List.nil_append, List.cons_append]
    cases fuel with
    | zero => rfl
    | succ f1 =>
      rw [pyReplaceAux]
      rw [if_neg ?c0]
      case c0 =>
        exact fun hcon =>
          (Bool.true_eq_false.mp ((isPrefixOf_cons_ne hq0 _ _) ▸ hcon.2.symm))
      cases f1 with
      | zero => rfl
      | succ f2 =>
        rw [pyReplaceAux]
        rw [if_neg ?c1]
        case c1 =>
          exact fun hcon =>
            (Bool.true_eq_false.mp ((isPrefixOf_cons_ne hq1 _ _) ▸ hcon.2.symm))
        cases f2 with
        | zero => rfl
        | succ f3 =>
          rw [pyReplaceAux]
          rw [if_neg ?c2]
          case c2 =>
            exact fun hcon =>
              (Bool.true_eq_false.mp ((isPrefixOf_cons_ne hq2 _ _) ▸ hcon.2.symm))
          cases f3 with
          | zero => rfl
          | succ f4 =>
            rw [pyReplaceAux]
            rw [if_neg ?c3]
            case c3 =>
              exact fun hcon =>
                (Bool.true_eq_false.mp ((isPrefixOf_cons_ne h58 _ _) ▸ hcon.2.symm))
            simp only [List.cons.injEq, true_and]
            exact pyReplaceAux_eq_self (by simp) f4 v hv
  | cons c u ih =>
    intro fuel v hcu hv
    have hu : (58 : Nat) ∉ u := fun hm => hcu (List.mem_cons_of_mem c hm)
    simp only [List.cons_append]
    cases fuel with
    | zero => rfl
    | succ f =>
      have hpre : [p0, p1, p2, 58].isPrefixOf (c :: (u ++ ([q0, q1, q2, 58] ++ v))) = false := by
        apply pat_not_prefix_cons hcu
        intro j hj
        interval_cases j <;> simp <;> omega
      rw [pyReplaceAux]
      rw [if_neg ?hc2]
      case hc2 => exact fun hcon => (Bool.true_eq_false.mp (hpre ▸ hcon.2.symm))
      simp only [List.cons.injEq, true_and]
      exact ih f v hu hv

/-- C10 counterexample: deleting an internal `"doi:"` removes four characters,
not five: `sanitize_filename "Xdoi:Y" = "XY"`, and the length drops by 4. -/
theorem C10_counterexample_four_chars :
    sanitize_filename (S "Xdoi:Y") = S "XY" ∧
      (S "Xdoi:Y").length = (S "XY").length + 4 ∧
      (S "Xdoi:Y").length ≠ (S "XY").length + 5 := by decide

/-- C10 (amended): for colon-free, whitespace-free strings `u`, `v`, the
sanitizer deletes an occurrence of the exact substrings `"doi:"` and `"DOI:"`
anywhere in the input — not only as a leading prefix — removing those four
characters; the mixed-case variant `"Doi:"` is not deleted and its colon is
replaced by an underscore; and distinct identifiers can sanitize to the same
key (`"doi:10.1/x"` and `"10.1/x"`). -/
theorem C10_amended_sanitizer_deletes_doi (u v : PyStr)
    (hu : ∀ c ∈ u, c ≠ 58 ∧ pyIsSpace c = false)
    (hv : ∀ c ∈ v, c ≠ 58 ∧ pyIsSpace c = false) :
    sanitize_filename (u ++ (S "doi:" ++ v)) = sanitize_filename (u ++ v) ∧
    sanitize_filename (u ++ (S "DOI:" ++ v)) = sanitize_filename (u ++ v) ∧
    sanitize_filename (S "Doi:x") = S "Doi_x" ∧
    (S "doi:10.1/x" ≠ S "10.1/x" ∧
      sanitize_filename (S "doi:10.1/x") = sanitize_filename (S "10.1/x")) := by
  have hu58 : (58 : Nat) ∉ u := fun hm => (hu 58 hm).1 rfl
  have hv58 : (58 : Nat) ∉ v := fun hm => (hv 58 hm).1 rfl
  have huv58 : (58 : Nat) ∉ u ++ v := by
    simp only [List.mem_append]
    rintro (h | h)
    · exact hu58 h
    · exact hv58 h
  have hdoi : S "doi:" = [100, 111, 105, 58] := rfl
  have hDOI : S "DOI:" = [68, 79, 73, 58] := rfl
  have hspace : ∀ (w : PyStr), w = S "doi:" ∨ w = S "DOI:" →
      ∀ c ∈ u ++ (w ++ v), pyIsSpace c = false := by
    rintro w (rfl | rfl) c hc <;>
    · simp only [List.mem_append] at hc
      rcases hc with h | h | h
      · exact (hu c h).2
      · revert h; revert c; decide
      · exact (hv c h).2
  have hspace2 : ∀ c ∈ u ++ v, pyIsSpace c = false := by
    intro c hc
    simp only [List.mem_append] at hc
    rcases hc with h | h
    · exact (hu c h).2
    · exact (hv c h).2
  have hrhs : sanitize_filename (u ++ v) = subBadAux false (u ++ v) := by
    rw [sanitize_filename, pyStrip_of_no_space hspace2,
      pyReplace_eq_self (S "doi:") 58 (by decide) huv58,
      pyReplace_eq_self (S "DOI:") 58 (by decide) huv58]
  refine ⟨?_, ?_, by decide, by decide, by decide⟩
  · rw [sanitize_filename, pyStrip_of_no_space (hspace _ (Or.inl rfl)), hdoi]
    rw [show pyReplace [100, 111, 105, 58] [] (u ++ ([100, 111, 105, 58] ++ v)) = u ++ v from
      replace_deletes_mid (by decide) (by decide) (by decide) u _ v hu58 hv58 (le_refl _)]
    rw [pyReplace_eq_self (S "DOI:") 58 (by decide) huv58, hrhs]
  · rw [sanitize_filename, pyStrip_of_no_space (hspace _ (Or.inr rfl)), hdoi, hDOI]
    rw [show pyReplace [100, 111, 105, 58] [] (u ++ ([68, 79, 73, 58] ++ v)) =
        u ++ ([68, 79, 73, 58] ++ v) from
      replace_skips_other (by decide) (by decide) (by decide) (by decide)
        (by decide) (by decide) (by decide) u _ v hu58 hv58]
    rw [show pyReplace [68, 79, 73, 58] [] (u ++ ([68, 79, 73, 58] ++ v)) = u ++ v from
      replace_deletes_mid (by decide) (by decide) (by decide) u _ v hu58 hv58 (le_refl _)]
    rw [hrhs]

/-- C10 witness: the amended theorem applied at `u = "ab"`, `v = "cd"`. -/
theorem C10_amended_sanitizer_deletes_doi_witness :
    sanitize_filename (S "ab" ++ (S "doi:" ++ S "cd")) = sanitize_filename (S "ab" ++ S "cd") ∧
    sanitize_filename (S "ab" ++ (S "DOI:" ++ S "cd")) = sanitize_filename (S "ab" ++ S "cd") := by
  have h := C10_amended_sanitizer_deletes_doi (S "ab") (S "cd") (by decide) (by decide)
  exact ⟨h.1, h.2.1⟩

end PdfHarvest


namespace PdfHarvest

lemma coreGo_sleep (f : Nat → Att) :
    ∀ (rem i k : Nat) (hk : k < (coreGo f i rem).2.length),
      (coreGo f i rem).2[k] = coreWaitAt f (i + k) := by
  intro rem
  induction rem with
  | zero => intro i k hk; simp [coreGo] at hk
  | succ rem ih =>
    intro i k hk
    cases hfi : f i with
    | transport =>
      by_cases hrem : rem = 0
      · subst hrem; simp [coreGo, hfi] at hk
      · simp only [coreGo, hfi, if_neg hrem] at hk
        simp only [coreGo, hfi, if_neg hrem]
        cases k with
        | zero => simp [coreWaitAt, hfi]
        | succ k =>
          simp only [List.getElem_cons_succ]
          simp only [List.length_cons, Nat.add_lt_add_iff_right] at hk
          rw [ih (i + 1) k hk]
          congr 1
          omega
    | resp s ra =>
      by_cases hret : retryable s
      · simp only [coreGo, hfi, if_pos hret] at hk
        simp only [coreGo, hfi, if_pos hret]
        cases k with
        | zero =>
          cases ra with
          | none => simp [coreWaitAt, hfi, hret]
          | some q => simp [coreWaitAt, hfi, hret]
        | succ k =>
          simp only [List.getElem_cons_succ]
          simp only [List.length_cons, Nat.add_lt_add_iff_right] at hk
          rw [ih (i + 1) k hk]
          congr 1
          omega
      · by_cases h4 : 400 ≤ s
        · by_cases hrem : rem = 0
          · subst hrem; simp [coreGo, hfi, hret, h4] at hk
          · simp only [coreGo, hfi, if_neg hret, if_pos h4, if_neg hrem] at hk
            simp only [coreGo, hfi, if_neg hret, if_pos h4, if_neg hrem]
            cases k with
            | zero =>
              cases ra with
              | none => simp [coreWaitAt, hfi, hret]
              | some q => simp [coreWaitAt, hfi, hret]
            | succ k =>
              simp only [List.getElem_cons_succ]
              simp only [List.length_cons, Nat.add_lt_add_iff_right] at hk
              rw [ih (i + 1) k hk]
              congr 1
              omega
        · simp [coreGo, hfi, hret, h4] at hk

lemma httpGo_sleep (f : Nat → Att) :
    ∀ (rem i k : Nat) (hk : k < (httpGo f i rem).2.length),
      (httpGo f i rem).2[k] = backWait (i + k) := by
  intro rem
  induction rem with
  | zero => intro i k hk; simp [httpGo] at hk
  | succ rem ih =>
    intro i k hk
    cases hfi : f i with
    | transport =>
      by_cases hrem : rem = 0
      · subst hrem; simp [httpGo, hfi] at hk
      · simp only [httpGo, hfi, if_neg hrem] at hk
        simp only [httpGo, hfi, if_neg hrem]
        cases k with
        | zero => simp
        | succ k =>
          simp only [List.getElem_cons_succ]
          simp only [List.length_cons, Nat.add_lt_add_iff_right] at hk
          rw [ih (i + 1) k hk]
          congr 1
          omega
    | resp s ra =>
      by_cases hret : retryable s
      · simp only [httpGo, hfi, if_pos hret] at hk
        simp only [httpGo, hfi, if_pos hret]
        cases k with
        | zero => simp
        | succ k =>
          simp only [List.getElem_cons_succ]
          simp only [List.length_cons, Nat.add_lt_add_iff_right] at hk
          rw [ih (i + 1) k hk]
          congr 1
          omega
      · by_cases h4 : 400 ≤ s
        · simp [httpGo, hfi, hret, h4] at hk
        · simp [httpGo, hfi, hret, h4] at hk

lemma coreGo_attIdx (f : Nat → Att) :
    ∀ (rem i j : Nat), attIdx (coreGo f i rem).1 = some j → j < i + rem := by
  intro rem
  induction rem with
  | zero => intro i j h; simp [coreGo, attIdx] at h
  | succ rem ih =>
    intro i j h
    cases hfi : f i with
    | transport =>
      by_cases hrem : rem = 0
      · subst hrem
        simp [coreGo, hfi, attIdx] at h
        omega
      · simp only [coreGo, hfi, if_neg hrem] at h
        have := ih (i + 1) j h
        omega
    | resp s ra =>
      by_cases hret : retryable s
      · simp only [coreGo, hfi, if_pos hret] at h
        have := ih (i + 1) j h
        omega
      · by_cases h4 : 400 ≤ s
        · by_cases hrem : rem = 0
          · subst hrem
            simp [coreGo, hfi, hret, h4, attIdx] at h
            omega
          · simp only [coreGo, hfi, if_neg hret, if_pos h4, if_neg hrem] at h
            have := ih (i + 1) j h
            omega
        · simp [coreGo, hfi, hret, h4, attIdx] at h
          omega

lemma httpGo_attIdx (f : Nat → Att) :
    ∀ (rem i j : Nat), attIdx (httpGo f i rem).1 = some j → j < i + rem := by
  intro rem
  induction rem with
  | zero => intro i j h; simp [httpGo, attIdx] at h
  | succ rem ih =>
    intro i j h
    cases hfi : f i with
    | transport =>
      by_cases hrem : rem = 0
      · subst hrem
        simp [httpGo, hfi, attIdx] at h
        omega
      · simp only [httpGo, hfi, if_neg hrem] at h
        have := ih (i + 1) j h
        omega
    | resp s ra =>
      by_cases hret : retryable s
      · simp only [httpGo, hfi, if_pos hret] at h
        have := ih (i + 1) j h
        omega
      · by_cases h4 : 400 ≤ s
        · simp [httpGo, hfi, hret, h4, attIdx] at h
          omega
        · simp [httpGo, hfi, hret, h4, attIdx] at h
          omega

/-- C2 counterexample: in the batch script, a constant 404 (non-retryable)
upstream is retried — the run ends by raising on attempt index 5 after five
backoff sleeps, not immediately on attempt 0 with no sleep. -/
theorem C2_counterexample_core_retries_404 :
    backoff_request_core (fun _ => .resp 404 none) =
      (.raisedStatus 5 404, [1/2, 1, 2, 4, 8]) ∧ ([1/2, 1, 2, 4, 8] : List ℚ) ≠ [] := by
  constructor
  · simp [backoff_request_core, coreGo, retryable, backWait]
    norm_num
  · simp

/-- C2 (amended): the packaged `backoff_request` raises a non-retryable
status immediately — one attempt, no sleeps; the batch-script variant
catches the status error like a transport error and retries it with the
computed backoff, raising only on the sixth attempt. -/
theorem C2_amended_nonretryable_status (f : Nat → Att) (s : Nat) (ra : Option ℚ)
    (h400 : 400 ≤ s) (hnr : retryable s = false) (h0 : f 0 = .resp s ra) :
    backoff_request_http f = (.raisedStatus 0 s, []) ∧
    backoff_request_core (fun _ => .resp s ra) =
      (.raisedStatus 5 s, [1/2, 1, 2, 4, 8]) := by
  constructor
  · simp [backoff_request_http, httpGo, h0, hnr, h400]
  · simp [backoff_request_core, coreGo, hnr, h400, backWait]
    norm_num

/-- C2 witness: the amended theorem at a constant-404 oracle. -/
theorem C2_amended_nonretryable_status_witness :
    backoff_request_http (fun _ => .resp 404 none) = (.raisedStatus 0 404, []) :=
  (C2_amended_nonretryable_status (fun _ => .resp 404 none) 404 none
    (by norm_num) (by decide) rfl).1

/-- C3 counterexample: the packaged `backoff_request` ignores `Retry-After`:
a 503 carrying `Retry-After: 3` on attempt 0 is followed by a 0.5 s wait,
not a 3 s wait. -/
theorem C3_counterexample_http_ignores_retry_after :
    backoff_request_http (fun i => if i = 0 then .resp 503 (some 3) else .resp 200 none) =
      (.success 1, [1/2]) ∧ ((1/2 : ℚ) ≠ 3) := by
  constructor
  · simp [backoff_request_http, httpGo, retryable, backWait]
    norm_num
  · norm_num

/-- C3 (amended): both variants make at most 6 attempts; for a run whose
attempts are all retryable (retryable status or transport failure), the
batch script's wait after attempt `i` is the spec's
`min(0.5 * 2^i, 10)`-with-`Retry-After`-override schedule, while the
packaged variant always sleeps the computed `min(0.5 * 2^i, 10)`, ignoring
`Retry-After`. -/
theorem C3_amended_backoff_schedule (f : Nat → Att)
    (hr : ∀ j, match f j with | .resp s _ => retryable s = true | .transport => True) :
    attemptsMade (backoff_request_core f).1 ≤ 6 ∧
    attemptsMade (backoff_request_http f).1 ≤ 6 ∧
    (∀ k, (hk : k < (backoff_request_core f).2.length) →
      (backoff_request_core f).2[k] = specWait f k) ∧
    (∀ k, (hk : k < (backoff_request_http f).2.length) →
      (backoff_request_http f).2[k] = min ((1/2 : ℚ) * 2 ^ k) 10) := by
  refine ⟨?_, ?_, ?_, ?_⟩
  · cases ho : (backoff_request_core f).1 with
    | exhausted => simp [attemptsMade]
    | success i =>
      have := coreGo_attIdx f 6 0 i
        (by rw [show coreGo f 0 6 = backoff_request_core f from rfl, ho]; rfl)
      simp [attemptsMade]; omega
    | raisedStatus i s =>
      have := coreGo_attIdx f 6 0 i
        (by rw [show coreGo f 0 6 = backoff_request_core f from rfl, ho]; rfl)
      simp [attemptsMade]; omega
    | raisedTransport i =>
      have := coreGo_attIdx f 6 0 i
        (by rw [show coreGo f 0 6 = backoff_request_core f from rfl, ho]; rfl)
      simp [attemptsMade]; omega
  · cases ho : (backoff_request_http f).1 with
    | exhausted => simp [attemptsMade]
    | success i =>
      have := httpGo_attIdx f 6 0 i
        (by rw [show httpGo f 0 6 = backoff_request_http f from rfl, ho]; rfl)
      simp [attemptsMade]; omega
    | raisedStatus i s =>
      have := httpGo_attIdx f 6 0 i
        (by rw [show httpGo f 0 6 = backoff_request_http f from rfl, ho]; rfl)
      simp [attemptsMade]; omega
    | raisedTransport i =>
      have := httpGo_attIdx f 6 0 i
        (by rw [show httpGo f 0 6 = backoff_request_http f from rfl, ho]; rfl)
      simp [attemptsMade]; omega
  · intro k hk
    have h := coreGo_sleep f 6 0 k hk
    simp only [Nat.zero_add] at h
    rw [show (backoff_request_core f).2[k] = (coreGo f 0 6).2[k] from rfl, h]
    have hfk := hr k
    unfold coreWaitAt specWait
    cases hfk2 : f k with
    | transport => simp [backWait]
    | resp s ra =>
      rw [hfk2] at hfk
      cases ra with
      | none => simp [backWait]
      | some q => simp [hfk]
  · intro k hk
    have h := httpGo_sleep f 6 0 k hk
    simp only [Nat.zero_add] at h
    rw [show (backoff_request_http f).2[k] = (httpGo f 0 6).2[k] from rfl, h]
    simp [backWait]

/-- C3 witness: the amended theorem at a constant retryable oracle. -/
theorem C3_amended_backoff_schedule_witness :
    attemptsMade (backoff_request_core (fun _ => .resp 503 (some 3))).1 ≤ 6 :=
  (C3_amended_backoff_schedule (fun _ => .resp 503 (some 3)) (fun j => by
    show retryable 503 = true
    decide)).1

/-- C1 counterexample: the batch script's `download_pdf` writes straight to
the destination; a transport error after one delivered chunk returns
`false` but leaves the partial file visible at the destination path. -/
theorem C1_counterexample_partial_left_at_dest :
    download_pdf_core ⟨200, [], .interrupted [[1, 2, 3]]⟩ none = (false, some [1, 2, 3]) ∧
      (some [1, 2, 3] : Option (List Nat)) ≠ none :=
  ⟨by decide, by decide⟩

/-- C1 (amended): the packaged `download_pdf` streams to a uuid-suffixed
temporary file and publishes at the destination only by `replace` after its
checks pass — on any failure the destination is unchanged.  The batch
script's `download_pdf` writes directly to the destination: it returns
`false` and leaves nothing for a bad HTTP status, returns `false` and
removes the file on a failed `%PDF` magic check, but a mid-stream transport
error returns `false` with the partial file left at the destination. -/
theorem C1_amended_download_pdf (r : Resp) (s : Slots) (d : Option (List Nat)) :
    ((download_pdf_http r s).1 = false → (download_pdf_http r s).2.dest = s.dest) ∧
    (∀ chunks, r.body = .ok chunks → (download_pdf_http r s).1 = true →
      (download_pdf_http r s).2 = ⟨none, some chunks.flatten⟩) ∧
    (400 ≤ r.status → download_pdf_core r d = (false, d)) ∧
    (∀ chunks, r.status < 400 → r.body = .ok chunks → chunks.flatten.take 4 ≠ pdfMagic →
      download_pdf_core r d = (false, none)) ∧
    (∀ chunks, r.status < 400 → r.body = .interrupted chunks →
      download_pdf_core r d = (false, some chunks.flatten)) := by
  obtain ⟨st, ct, body⟩ := r
  refine ⟨?_, ?_, ?_, ?_, ?_⟩
  · by_cases h200 : st = 200
    · subst h200
      by_cases hct : subStr (S "pdf") (cfStr ct) = true
      · cases body with
        | ok chunks => intro hf; simp [download_pdf_http, hct] at hf
        | interrupted chunks => intro _; simp [download_pdf_http, hct]
      · intro _; simp [download_pdf_http, hct]
    · intro _; simp [download_pdf_http, h200]
  · intro chunks hb htrue
    subst hb
    by_cases h200 : st = 200
    · subst h200
      by_cases hct : subStr (S "pdf") (cfStr ct) = true
      · simp [download_pdf_http, hct]
      · simp [download_pdf_http, hct] at htrue
    · simp [download_pdf_http, h200] at htrue
  · intro h
    simp [download_pdf_core, h]
  · intro chunks hlt hb hmg
    subst hb
    simp [download_pdf_core, Nat.not_le.mpr hlt, hmg]
  · intro chunks hlt hb
    subst hb
    simp [download_pdf_core, Nat.not_le.mpr hlt]

/-- C1 witness: the amended theorem at a 404 response — the packaged
downloader fails and the destination slot stays empty. -/
theorem C1_amended_download_pdf_witness :
    (download_pdf_http ⟨404, [], .ok []⟩ ⟨none, none⟩).2.dest = none :=
  (C1_amended_download_pdf ⟨404, [], .ok []⟩ ⟨none, none⟩ none).1 (by decide)

/-- C8 counterexample: the packaged `cache_read` propagates the decoding
error for a cache file whose bytes are not valid UTF-8 (caught neither by
the `path.exists()` guard nor by `except json.JSONDecodeError`). -/
theorem C8_counterexample_cache_read_raises :
    cache_read (FileData.badBytes : FileData Nat) = .error () ∧
      ∀ v : Option Nat, cache_read (FileData.badBytes : FileData Nat) ≠ .ok v :=
  ⟨rfl, fun _ h => Except.noConfusion h⟩

/-- C8 (amended): the batch script's `read_cache_json` never raises —
absent, undecodable or malformed files all read as `None` and a valid
document is returned; the packaged `cache_read` returns `{}` for an absent
file or invalid JSON, returns a valid document, but raises when the file
bytes are not valid UTF-8. -/
theorem C8_amended_cache_read {α : Type} (fd : FileData α) :
    (∃ v, read_cache_json fd = .ok v) ∧
    (fd ≠ .badBytes → ∃ v, cache_read fd = .ok v) ∧
    cache_read (.badBytes : FileData α) = .error () ∧
    read_cache_json (.absent : FileData α) = .ok none ∧
    read_cache_json (.badJson : FileData α) = .ok none ∧
    read_cache_json (.badBytes : FileData α) = .ok none ∧
    (∀ d : α, read_cache_json (.json d) = .ok (some d)) ∧
    cache_read (.absent : FileData α) = .ok none ∧
    cache_read (.badJson : FileData α) = .ok none ∧
    (∀ d : α, cache_read (.json d) = .ok (some d)) := by
  refine ⟨?_, ?_, rfl, rfl, rfl, rfl, fun d => rfl, rfl, rfl, fun d => rfl⟩
  · cases fd <;> exact ⟨_, rfl⟩
  · intro hne
    cases fd with
    | absent => exact ⟨none, rfl⟩
    | badBytes => exact absurd rfl hne
    | badJson => exact ⟨none, rfl⟩
    | json d => exact ⟨some d, rfl⟩

/-- C8 witness: the amended theorem at an absent cache file. -/
theorem C8_amended_cache_read_witness :
    ∃ v, cache_read (FileData.absent : FileData Nat) = .ok v :=
  (C8_amended_cache_read (FileData.absent : FileData Nat)).2.1 (by
    intro h
    exact FileData.noConfusion h)

end PdfHarvest

namespace PdfHarvest

lemma ofDigitsLE_natDigitsRev : ∀ (fuel n : Nat), n ≤ fuel →
    ofDigitsLE (natDigitsRev fuel n) = n := by
  intro fuel
  induction fuel with
  | zero => intro n hn; interval_cases n; rfl
  | succ fuel ih =>
    intro n hn
    by_cases h0 : n = 0
    · subst h0; simp [natDigitsRev, ofDigitsLE]
    · rw [natDigitsRev, if_neg h0, ofDigitsLE, ih (n / 10) (by omega)]
      omega

lemma natChars_injective : Function.Injective natChars := by
  intro a b h
  unfold natChars at h
  by_cases ha : a = 0 <;> by_cases hb : b = 0
  · omega
  · rw [if_pos ha, if_neg hb] at h
    exfalso
    have h2 : List.map (fun d => 48 + d) [0] =
        List.map (fun d => 48 + d) ((natDigitsRev b b).reverse) := by
      simpa using h
    have hinj : Function.Injective (fun d : Nat => 48 + d) :=
      fun x y hxy => Nat.add_left_cancel hxy
    have h3 := List.map_injective_iff.mpr hinj h2
    have h4 : natDigitsRev b b = [0] := by
      have := congrArg List.reverse h3
      simpa using this.symm
    have h5 := ofDigitsLE_natDigitsRev b b (le_refl b)
    rw [h4] at h5
    simp [ofDigitsLE] at h5
    omega
  · rw [if_neg ha, if_pos hb] at h
    exfalso
    have h2 : List.map (fun d => 48 + d) ((natDigitsRev a a).reverse) =
        List.map (fun d => 48 + d) [0] := by
      simpa using h
    have hinj : Function.Injective (fun d : Nat => 48 + d) :=
      fun x y hxy => Nat.add_left_cancel hxy
    have h3 := List.map_injective_iff.mpr hinj h2
    have h4 : natDigitsRev a a = [0] := by
      have := congrArg List.reverse h3
      simpa using this
    have h5 := ofDigitsLE_natDigitsRev a a (le_refl a)
    rw [h4] at h5
    simp [ofDigitsLE] at h5
    omega
  · rw [if_neg ha, if_neg hb] at h
    have hinj : Function.Injective (fun d : Nat => 48 + d) :=
      fun x y hxy => Nat.add_left_cancel hxy
    have h3 := List.map_injective_iff.mpr hinj h
    have h4 := List.reverse_injective h3
    have h5 := ofDigitsLE_natDigitsRev a a (le_refl a)
    have h6 := ofDigitsLE_natDigitsRev b b (le_refl b)
    rw [h4] at h5
    omega

lemma candName_injective (src : PathS) (dstDir : PyStr) :
    Function.Injective (candName src dstDir) := by
  intro k1 k2 h
  have hstem : src.stem ++ 95 :: natChars k1 = src.stem ++ 95 :: natChars k2 :=
    congrArg PathS.stem h
  have h2 := List.append_cancel_left hstem
  have h3 : natChars k1 = natChars k2 := by
    injection h2
  exact natChars_injective h3

lemma findFree_spec (fs : List PathS) (src : PathS) (dstDir : PyStr) :
    ∀ (fuel k : Nat), (∃ j, j < fuel ∧ candName src dstDir (k + j) ∉ fs) →
      candName src dstDir (findFree fs src dstDir k fuel) ∉ fs ∧
      k ≤ findFree fs src dstDir k fuel ∧
      ∀ j, k ≤ j → j < findFree fs src dstDir k fuel → candName src dstDir j ∈ fs := by
  intro fuel
  induction fuel with
  | zero =>
    intro k hex
    obtain ⟨j, hj, _⟩ := hex
    omega
  | succ fuel ih =>
    intro k hex
    by_cases hin : candName src dstDir k ∈ fs
    · have hex2 : ∃ j, j < fuel ∧ candName src dstDir (k + 1 + j) ∉ fs := by
        obtain ⟨j, hj, hnotin⟩ := hex
        cases j with
        | zero => exact absurd hin (by simpa using hnotin)
        | succ j =>
          exact ⟨j, by omega, by
            have : k + 1 + j = k + (j + 1) := by omega
            rw [this]
            exact hnotin⟩
      have hres := ih (k + 1) hex2
      rw [show findFree fs src dstDir k (fuel + 1) = findFree fs src dstDir (k + 1) fuel from by
        rw [findFree, if_pos hin]]
      refine ⟨hres.1, by omega, ?_⟩
      intro j hkj hjlt
      by_cases hjk : j = k
      · subst hjk; exact hin
      · exact hres.2.2 j (by omega) hjlt
    · rw [show findFree fs src dstDir k (fuel + 1) = k from by rw [findFree, if_neg hin]]
      exact ⟨hin, le_refl k, fun j h1 h2 => absurd (lt_of_le_of_lt h1 h2) (lt_irrefl k)⟩

lemma exists_free_cand (fs : List PathS) (src : PathS) (dstDir : PyStr) (k : Nat) :
    ∃ j, j < fs.length + 1 ∧ candName src dstDir (k + j) ∉ fs := by
  by_contra hcon
  push_neg at hcon
  have hsub : (List.range (fs.length + 1)).map (fun j => candName src dstDir (k + j)) ⊆ fs := by
    intro x hx
    simp only [List.mem_map, List.mem_range] at hx
    obtain ⟨j, hj, rfl⟩ := hx
    exact hcon j hj
  have hinj : Function.Injective (fun j : Nat => candName src dstDir (k + j)) := by
    intro x y hxy
    have := candName_injective src dstDir hxy
    omega
  have hnd : ((List.range (fs.length + 1)).map (fun j => candName src dstDir (k + j))).Nodup :=
    (List.nodup_range _).map hinj
  have := (List.subperm_of_subset hnd hsub).length_le
  simp at this

/-- C4: the atomic router `move_pdf_atomic` never overwrites an existing
file; it keeps the source's name when free in the destination directory and
otherwise appends `_k` for the least `k ≥ 1` whose name is unoccupied
(every smaller suffix being occupied); after the call the source path is
gone and exactly one file exists at the returned final path. -/
theorem C4_move_pdf_atomic_router (fs : List PathS) (src : PathS) (dstDir : PyStr)
    (hnd : fs.Nodup) (hdir : src.dir ≠ dstDir) :
    (move_pdf_atomic fs src dstDir).1 ∉ fs ∧
    (move_pdf_atomic fs src dstDir).1.dir = dstDir ∧
    ((⟨dstDir, src.stem, src.suf⟩ : PathS) ∉ fs →
      (move_pdf_atomic fs src dstDir).1 = ⟨dstDir, src.stem, src.suf⟩) ∧
    ((⟨dstDir, src.stem, src.suf⟩ : PathS) ∈ fs →
      ∃ k, 1 ≤ k ∧ (move_pdf_atomic fs src dstDir).1 = candName src dstDir k ∧
        ∀ j, 1 ≤ j → j < k → candName src dstDir j ∈ fs) ∧
    src ∉ (move_pdf_atomic fs src dstDir).2 ∧
    (move_pdf_atomic fs src dstDir).2.count (move_pdf_atomic fs src dstDir).1 = 1 := by
  have hex : ∃ j, j < fs.length + 1 ∧ candName src dstDir (1 + j) ∉ fs := by
    obtain ⟨j, hj, hno⟩ := exists_free_cand fs src dstDir 1
    exact ⟨j, hj, hno⟩
  have hff := findFree_spec fs src dstDir (fs.length + 1) 1 hex
  by_cases htin : (⟨dstDir, src.stem, src.suf⟩ : PathS) ∈ fs
  · have hmv : move_pdf_atomic fs src dstDir =
        (candName src dstDir (findFree fs src dstDir 1 (fs.length + 1)),
          candName src dstDir (findFree fs src dstDir 1 (fs.length + 1)) :: fs.erase src) := by
      rw [move_pdf_atomic]
      simp [htin]
    rw [hmv]
    refine ⟨hff.1, rfl, fun hno => absurd htin hno, ?_, ?_, ?_⟩
    · intro _
      exact ⟨_, hff.2.1, rfl, hff.2.2⟩
    · intro hmem
      rcases List.mem_cons.mp hmem with heq | hmem2
      · have : src.dir = dstDir := congrArg PathS.dir heq
        exact hdir this
      · exact (List.Nodup.mem_erase_iff hnd).mp hmem2 |>.1 rfl
    · rw [List.count_cons_self]
      have hnotin : candName src dstDir (findFree fs src dstDir 1 (fs.length + 1)) ∉
          fs.erase src :=
        fun hmem => hff.1 ((List.erase_sublist src fs).subset hmem)
      rw [List.count_eq_zero_of_not_mem hnotin]
  · have hmv : move_pdf_atomic fs src dstDir =
        ((⟨dstDir, src.stem, src.suf⟩ : PathS),
          (⟨dstDir, src.stem, src.suf⟩ : PathS) :: fs.erase src) := by
      rw [move_pdf_atomic]
      simp [htin]
    rw [hmv]
    refine ⟨htin, rfl, fun _ => rfl, fun hin => absurd hin htin, ?_, ?_⟩
    · intro hmem
      rcases List.mem_cons.mp hmem with heq | hmem2
      · have : src.dir = dstDir := congrArg PathS.dir heq
        exact hdir this
      · exact (List.Nodup.mem_erase_iff hnd).mp hmem2 |>.1 rfl
    · rw [List.count_cons_self]
      have hnotin : (⟨dstDir, src.stem, src.suf⟩ : PathS) ∉ fs.erase src :=
        fun hmem => htin ((List.erase_sublist src fs).subset hmem)
      rw [List.count_eq_zero_of_not_mem hnotin]

/-- C4 witness: the theorem applied to routing `file.pdf` into a directory
already holding `file.pdf` and `file_1.pdf`; the router lands at
`file_2.pdf`, overwriting nothing. -/
theorem C4_move_pdf_atomic_router_witness :
    (move_pdf_atomic
      [⟨S "dest", S "file", S ".pdf"⟩, ⟨S "dest", S "file_1", S ".pdf"⟩,
        ⟨S "downloads", S "file", S ".pdf"⟩]
      ⟨S "downloads", S "file", S ".pdf"⟩ (S "dest")).1 ∉
      [(⟨S "dest", S "file", S ".pdf"⟩ : PathS), ⟨S "dest", S "file_1", S ".pdf"⟩,
        ⟨S "downloads", S "file", S ".pdf"⟩] ∧
    (move_pdf_atomic
      [⟨S "dest", S "file", S ".pdf"⟩, ⟨S "dest", S "file_1", S ".pdf"⟩,
        ⟨S "downloads", S "file", S ".pdf"⟩]
      ⟨S "downloads", S "file", S ".pdf"⟩ (S "dest")).1 =
      ⟨S "dest", S "file_2", S ".pdf"⟩ :=
  ⟨(C4_move_pdf_atomic_router
      [⟨S "dest", S "file", S ".pdf"⟩, ⟨S "dest", S "file_1", S ".pdf"⟩,
        ⟨S "downloads", S "file", S ".pdf"⟩]
      ⟨S "downloads", S "file", S ".pdf"⟩ (S "dest") (by decide) (by decide)).1,
    by decide⟩

end PdfHarvest

namespace PdfHarvest

lemma cfChar_idem (n : Nat) : cfChar (cfChar n) = cfChar n := by
  by_cases h : (65 ≤ n && n ≤ 90) = true
  · have h1 : cfChar n = n + 32 := by unfold cfChar; rw [if_pos h]
    rw [h1]
    unfold cfChar
    rw [if_neg (by
      simp only [Bool.and_eq_true, decide_eq_true_eq] at h ⊢
      omega)]
  · have h1 : cfChar n = n := by unfold cfChar; rw [if_neg h]
    rw [h1, h1]

lemma cfStr_idem (s : PyStr) : cfStr (cfStr s) = cfStr s := by
  unfold cfStr
  rw [List.map_map]
  exact List.map_congr_left (fun c _ => cfChar_idem c)

lemma lexLe_total : ∀ a b : PyStr, lexLe a b = true ∨ lexLe b a = true := by
  intro a
  induction a with
  | nil => intro b; left; rfl
  | cons x xs ih =>
    intro b
    cases b with
    | nil => right; rfl
    | cons y ys =>
      by_cases hxy : x = y
      · subst hxy
        rcases ih ys with h | h
        · left; simpa [lexLe] using h
        · right; simpa [lexLe] using h
      · rcases Nat.lt_or_ge x y with h | h
        · left; simp [lexLe, hxy, h]
        · right
          have hyx : y ≠ x := fun he => hxy he.symm
          have : y < x := by omega
          simp [lexLe, hyx, this]

lemma lexLe_trans : ∀ a b c : PyStr, lexLe a b = true → lexLe b c = true →
    lexLe a c = true := by
  intro a
  induction a with
  | nil => intro b c _ _; rfl
  | cons x xs ih =>
    intro b c hab hbc
    cases b with
    | nil => simp [lexLe] at hab
    | cons y ys =>
      cases c with
      | nil => simp [lexLe] at hbc
      | cons z zs =>
        by_cases hxy : x = y <;> by_cases hyz : y = z
        · subst hxy; subst hyz
          simp only [lexLe, if_pos rfl] at hab hbc ⊢
          exact ih ys zs hab hbc
        · subst hxy
          simp only [lexLe, if_pos rfl] at hab
          simp only [lexLe, if_neg hyz] at hbc ⊢
          exact hbc
        · subst hyz
          simp only [lexLe, if_neg hxy] at hab ⊢
          exact hab
        · simp only [lexLe, if_neg hxy] at hab
          simp only [lexLe, if_neg hyz] at hbc
          have h1 : x < y := by simpa using hab
          have h2 : y < z := by simpa using hbc
          have hxz : x ≠ z := by omega
          simp only [lexLe, if_neg hxz]
          simp
          omega

lemma addHit_mem (h m : PyStr) (hs : List PyStr) :
    m ∈ addHit h hs ↔ m ∈ hs ∨ m = h := by
  unfold addHit
  by_cases hin : h ∈ hs
  · simp only [if_pos hin]
    constructor
    · exact Or.inl
    · rintro (hm | rfl)
      · exact hm
      · exact hin
  · simp only [if_neg hin, List.mem_append, List.mem_singleton]

lemma addHit_nodup (h : PyStr) (hs : List PyStr) (hnd : hs.Nodup) :
    (addHit h hs).Nodup := by
  unfold addHit
  by_cases hin : h ∈ hs
  · simpa [hin]
  · simp [hin, List.nodup_append, hnd, List.disjoint_singleton]

lemma pageScan_char (txt : PyStr) : ∀ (ns : List PyStr) (acc : List PyStr × Bool),
    ((ns.foldl (fun acc n => if subStr n txt then (addHit n acc.1, true) else acc) acc).2 =
      (acc.2 || ns.any (fun n => subStr n txt))) ∧
    (∀ m, m ∈ (ns.foldl (fun acc n => if subStr n txt then (addHit n acc.1, true) else acc) acc).1 ↔
      m ∈ acc.1 ∨ (m ∈ ns ∧ subStr m txt = true)) := by
  intro ns
  induction ns with
  | nil => intro acc; simp
  | cons n ns ih =>
    intro acc
    by_cases hsub : subStr n txt = true
    · constructor
      · rw [List.foldl_cons, if_pos hsub, (ih _).1]
        simp [hsub]
      · intro m
        rw [List.foldl_cons, if_pos hsub, (ih _).2 m]
        simp only [addHit_mem, List.mem_cons]
        constructor
        · rintro ((hm | rfl) | ⟨hm, hs⟩)
          · exact Or.inl hm
          · exact Or.inr ⟨Or.inl rfl, hsub⟩
          · exact Or.inr ⟨Or.inr hm, hs⟩
        · rintro (hm | ⟨rfl | hm, hs⟩)
          · exact Or.inl (Or.inl hm)
          · exact Or.inl (Or.inr rfl)
          · exact Or.inr ⟨hm, hs⟩
    · constructor
      · rw [List.foldl_cons, if_neg hsub, (ih _).1]
        simp [hsub]
      · intro m
        rw [List.foldl_cons, if_neg hsub, (ih _).2 m]
        constructor
        · rintro (hm | ⟨hm, hs⟩)
          · exact Or.inl hm
          · exact Or.inr ⟨List.mem_cons_of_mem n hm, hs⟩
        · rintro (hm | ⟨hm, hs⟩)
          · exact Or.inl hm
          · rcases List.mem_cons.mp hm with rfl | hm2
            · exact absurd hs hsub
            · exact Or.inr ⟨hm2, hs⟩

lemma pageScan_flag (ns : List PyStr) (txt : PyStr) (hits : List PyStr) :
    (pageScan ns txt hits).2 = ns.any (fun n => subStr n txt) := by
  unfold pageScan
  rw [(pageScan_char txt ns (hits, false)).1]
  simp

lemma pageScan_mem (ns : List PyStr) (txt : PyStr) (hits : List PyStr) (m : PyStr) :
    m ∈ (pageScan ns txt hits).1 ↔ m ∈ hits ∨ (m ∈ ns ∧ subStr m txt = true) :=
  (pageScan_char txt ns (hits, false)).2 m

lemma pageScan_nodup (ns : List PyStr) (txt : PyStr) :
    ∀ (acc : List PyStr × Bool), acc.1.Nodup →
      (ns.foldl (fun acc n => if subStr n txt then (addHit n acc.1, true) else acc) acc).1.Nodup := by
  induction ns with
  | nil => intro acc h; simpa
  | cons n ns ih =>
    intro acc h
    rw [List.foldl_cons]
    by_cases hsub : subStr n txt = true
    · exact ih _ (by simpa [hsub] using addHit_nodup n acc.1 h)
    · exact ih _ (by simpa [hsub] using h)

lemma scanPages_hits_sub (ns : List PyStr) :
    ∀ (ps : List (Option PyStr)) (i : Nat) (hits : List PyStr) (pages : List Nat) (m : PyStr),
      m ∈ (scanPages ns ps i hits pages).1 → m ∈ hits ∨ m ∈ ns := by
  intro ps
  induction ps with
  | nil => intro i hits pages m hm; exact Or.inl hm
  | cons p ps ih =>
    intro i hits pages m hm
    rw [scanPages] at hm
    by_cases htxt : cfStr (p.getD []) = []
    · rw [if_pos htxt] at hm
      exact ih _ _ _ m hm
    · rw [if_neg htxt] at hm
      rcases ih _ _ _ m hm with hm2 | hm2
      · rcases (pageScan_mem ns _ hits m).mp hm2 with h | ⟨h, _⟩
        · exact Or.inl h
        · exact Or.inr h
      · exact Or.inr hm2

lemma scanPages_hits_nodup (ns : List PyStr) :
    ∀ (ps : List (Option PyStr)) (i : Nat) (hits : List PyStr) (pages : List Nat),
      hits.Nodup → (scanPages ns ps i hits pages).1.Nodup := by
  intro ps
  induction ps with
  | nil => intro i hits pages h; exact h
  | cons p ps ih =>
    intro i hits pages h
    rw [scanPages]
    by_cases htxt : cfStr (p.getD []) = []
    · rw [if_pos htxt]
      exact ih _ _ _ h
    · rw [if_neg htxt]
      exact ih _ _ _ (pageScan_nodup ns _ (hits, false) h)

lemma scanPages_pages_inv (ns : List PyStr) :
    ∀ (ps : List (Option PyStr)) (i : Nat) (hits : List PyStr) (pages : List Nat),
      pages.Nodup → (∀ x ∈ pages, x ≤ i) →
      (scanPages ns ps i hits pages).2.Nodup ∧
        ∀ x ∈ (scanPages ns ps i hits pages).2, x ≤ i + ps.length := by
  intro ps
  induction ps with
  | nil =>
    intro i hits pages hnd hle
    exact ⟨hnd, by simpa using hle⟩
  | cons p ps ih =>
    intro i hits pages hnd hle
    rw [scanPages]
    by_cases htxt : cfStr (p.getD []) = []
    · rw [if_pos htxt]
      have := ih (i + 1) hits pages hnd (fun x hx => by have := hle x hx; omega)
      exact ⟨this.1, fun x hx => by have := this.2 x hx; simp only [List.length_cons]; omega⟩
    · rw [if_neg htxt]
      dsimp only
      by_cases hflag : (pageScan ns (cfStr (p.getD [])) hits).2 = true
      · rw [if_pos hflag]
        have hnd2 : (pages ++ [i + 1]).Nodup := by
          simp only [List.nodup_append, List.nodup_singleton, List.disjoint_singleton]
          exact ⟨hnd, trivial, fun hmem => by have := hle _ hmem; omega⟩
        have hle2 : ∀ x ∈ pages ++ [i + 1], x ≤ i + 1 := by
          intro x hx
          rcases List.mem_append.mp hx with h | h
          · have := hle x h; omega
          · simp at h; omega
        have := ih (i + 1) (pageScan ns (cfStr (p.getD [])) hits).1 (pages ++ [i + 1]) hnd2 hle2
        exact ⟨this.1, fun x hx => by have := this.2 x hx; simp only [List.length_cons]; omega⟩
      · rw [if_neg hflag]
        have := ih (i + 1) (pageScan ns (cfStr (p.getD [])) hits).1 pages hnd
          (fun x hx => by have := hle x hx; omega)
        exact ⟨this.1, fun x hx => by have := this.2 x hx; simp only [List.length_cons]; omega⟩

lemma scanPages_equiv (ns1 ns2 : List PyStr) (hns : ∀ x, x ∈ ns1 ↔ x ∈ ns2) :
    ∀ (ps : List (Option PyStr)) (i : Nat) (hits1 hits2 : List PyStr) (pages : List Nat),
      (∀ m, m ∈ hits1 ↔ m ∈ hits2) →
      (scanPages ns1 ps i hits1 pages).2 = (scanPages ns2 ps i hits2 pages).2 ∧
      ((scanPages ns1 ps i hits1 pages).1 = [] ↔ (scanPages ns2 ps i hits2 pages).1 = []) := by
  intro ps
  induction ps with
  | nil =>
    intro i hits1 hits2 pages hm
    refine ⟨rfl, ?_⟩
    simp only [scanPages]
    rw [List.eq_nil_iff_forall_not_mem, List.eq_nil_iff_forall_not_mem]
    exact ⟨fun h a => (hm a).not.mp (h a), fun h a => (hm a).not.mpr (h a)⟩
  | cons p ps ih =>
    intro i hits1 hits2 pages hm
    rw [scanPages, scanPages]
    by_cases htxt : cfStr (p.getD []) = []
    · rw [if_pos htxt, if_pos htxt]
      exact ih (i + 1) hits1 hits2 pages hm
    · rw [if_neg htxt, if_neg htxt]
      dsimp only
      have hflag : (pageScan ns1 (cfStr (p.getD [])) hits1).2 =
          (pageScan ns2 (cfStr (p.getD [])) hits2).2 := by
        rw [pageScan_flag, pageScan_flag]
        rcases h1 : ns1.any (fun n => subStr n (cfStr (p.getD []))) with hfv | hfv
        · rcases h2 : ns2.any (fun n => subStr n (cfStr (p.getD []))) with h2v | h2v
          · rfl
          · exfalso
            rw [List.any_eq_true] at h2
            obtain ⟨x, hx, hsx⟩ := h2
            have : ns1.any (fun n => subStr n (cfStr (p.getD []))) = true :=
              List.any_eq_true.mpr ⟨x, (hns x).mpr hx, hsx⟩
            rw [h1] at this
            exact Bool.false_ne_true this
        · rcases h2 : ns2.any (fun n => subStr n (cfStr (p.getD []))) with h2v | h2v
          · exfalso
            rw [List.any_eq_true] at h1
            obtain ⟨x, hx, hsx⟩ := h1
            have : ns2.any (fun n => subStr n (cfStr (p.getD []))) = true :=
              List.any_eq_true.mpr ⟨x, (hns x).mp hx, hsx⟩
            rw [h2] at this
            exact Bool.false_ne_true this
          · rfl
      have hm2 : ∀ m, m ∈ (pageScan ns1 (cfStr (p.getD [])) hits1).1 ↔
          m ∈ (pageScan ns2 (cfStr (p.getD [])) hits2).1 := by
        intro m
        rw [pageScan_mem, pageScan_mem]
        constructor
        · rintro (h | ⟨h, hs⟩)
          · exact Or.inl ((hm m).mp h)
          · exact Or.inr ⟨(hns m).mp h, hs⟩
        · rintro (h | ⟨h, hs⟩)
          · exact Or.inl ((hm m).mpr h)
          · exact Or.inr ⟨(hns m).mpr h, hs⟩
      rw [hflag]
      exact ih (i + 1) _ _ _ hm2

/-- C7: `search_pdf` is case-insensitive and order-independent in its
needle list for `found` and `pages`; and for every needle list, `matches`
is a sorted, de-duplicated list of casefolded needles while `pages` is a
sorted, de-duplicated list of 1-based page numbers. -/
theorem C7_search_pdf_matcher (pdf : PyPdf) (ns1 ns2 : List PyStr)
    (hperm : (ns1.map cfStr).Perm (ns2.map cfStr)) :
    ((search_pdf pdf ns1).found = (search_pdf pdf ns2).found ∧
     (search_pdf pdf ns1).pages = (search_pdf pdf ns2).pages) ∧
    ∀ ns : List PyStr,
      List.Sorted (fun a b => lexLe a b = true) (search_pdf pdf ns).matches' ∧
      (search_pdf pdf ns).matches'.Nodup ∧
      (∀ m ∈ (search_pdf pdf ns).matches', cfStr m = m) ∧
      List.Sorted (fun a b : Nat => a ≤ b) (search_pdf pdf ns).pages ∧
      (search_pdf pdf ns).pages.Nodup := by
  constructor
  · cases pdf with
    | corrupt => exact ⟨rfl, rfl⟩
    | doc ps =>
      have hmem : ∀ x, x ∈ ns1.map cfStr ↔ x ∈ ns2.map cfStr := fun x => hperm.mem_iff
      have h := scanPages_equiv (ns1.map cfStr) (ns2.map cfStr) hmem ps 0 [] [] []
        (fun m => Iff.rfl)
      simp only [search_pdf]
      by_cases he : (scanPages (ns1.map cfStr) ps 0 [] []).1 = []
      · have he2 := h.2.mp he
        rw [if_neg (by simpa using he), if_neg (by simpa using he2)]
        exact ⟨rfl, rfl⟩
      · have he2 : ¬(scanPages (ns2.map cfStr) ps 0 [] []).1 = [] :=
          fun hcon => he (h.2.mpr hcon)
        rw [if_pos (by simpa using he), if_pos (by simpa using he2)]
        exact ⟨rfl, by simp only [h.1]⟩
  · intro ns
    cases pdf with
    | corrupt =>
      exact ⟨List.sorted_nil, List.nodup_nil, fun m hm => absurd hm (List.not_mem_nil m),
        List.sorted_nil, List.nodup_nil⟩
    | doc ps =>
      simp only [search_pdf]
      by_cases he : (scanPages (ns.map cfStr) ps 0 [] []).1 = []
      · rw [if_neg (by simpa using he)]
        exact ⟨List.sorted_nil, List.nodup_nil, fun m hm => absurd hm (List.not_mem_nil m),
          List.sorted_nil, List.nodup_nil⟩
      · rw [if_pos (by simpa using he)]
        have hhn : (scanPages (ns.map cfStr) ps 0 [] []).1.Nodup :=
          scanPages_hits_nodup (ns.map cfStr) ps 0 [] [] List.nodup_nil
        have hpn := scanPages_pages_inv (ns.map cfStr) ps 0 [] [] List.nodup_nil
          (fun x hx => absurd hx (List.not_mem_nil x))
        refine ⟨?_, ?_, ?_, ?_, ?_⟩
        · exact @List.sorted_insertionSort PyStr (fun a b => lexLe a b = true)
            (fun a b => instDecidableEqBool (lexLe a b) true)
            ⟨fun a b => lexLe_total a b⟩ ⟨fun a b c => lexLe_trans a b c⟩ _
        · exact (List.perm_insertionSort _ _).nodup_iff.mpr hhn
        · intro m hm
          have hm2 := (List.perm_insertionSort _ _).mem_iff.mp hm
          rcases scanPages_hits_sub (ns.map cfStr) ps 0 [] [] m hm2 with h0 | hns
          · exact absurd h0 (List.not_mem_nil m)
          · obtain ⟨x, _, rfl⟩ := List.mem_map.mp hns
            exact cfStr_idem x
        · exact @List.sorted_insertionSort Nat (fun a b => a ≤ b)
            (fun a b => Nat.decLe a b)
            ⟨fun a b => Nat.le_total a b⟩ ⟨fun a b c => Nat.le_trans⟩ _
        · exact (List.perm_insertionSort _ _).nodup_iff.mpr hpn.1

/-- C7 witness: the theorem applied to the spec's example needle lists
`["AGH University","IDUB"]` and `["idub","AGH UNIVERSITY"]`. -/
theorem C7_search_pdf_matcher_witness :
    (search_pdf (PyPdf.doc [some (S "We thank AGH University and the IDUB program.")])
        [S "AGH University", S "IDUB"]).found =
      (search_pdf (PyPdf.doc [some (S "We thank AGH University and the IDUB program.")])
        [S "idub", S "AGH UNIVERSITY"]).found :=
  (C7_search_pdf_matcher (PyPdf.doc [some (S "We thank AGH University and the IDUB program.")])
    [S "AGH University", S "IDUB"] [S "idub", S "AGH UNIVERSITY"] (by decide)).1.1

end PdfHarvest

namespace PdfHarvest

lemma stage2_step_temp_none (cfg : S2Cfg) (mcache : PyStr → Option MatchRes)
    (scanOf : PathS → MatchRes) (fs : List PathS) (r : Row) (h : r.temp = none) :
    stage2_step cfg mcache scanOf fs r = (r, fs, false) := by
  unfold stage2_step
  rw [h]

lemma stage2_step_final (cfg : S2Cfg) (mcache : PyStr → Option MatchRes)
    (scanOf : PathS → MatchRes) (fs : List PathS) (r : Row) (hr : r.finalPath = none) :
    ((stage2_step cfg mcache scanOf fs r).1.finalPath.isSome ↔
      ∃ p, r.temp = some p ∧ p ∈ fs) := by
  unfold stage2_step
  cases htemp : r.temp with
  | none => simp [hr]
  | some p =>
    dsimp only
    by_cases hin : p ∈ fs
    · rw [if_pos hin]
      simp [hin]
    · rw [if_neg hin]
      simp only [hr, Option.isSome_none, Bool.false_eq_true, false_iff]
      rintro ⟨q, hq, hqin⟩
      rw [Option.some.injEq] at hq
      subst hq
      exact hin hqin

lemma process_batch_pdfs_length (cfg : S2Cfg) (mcache : PyStr → Option MatchRes)
    (scanOf : PathS → MatchRes) :
    ∀ (rows : List Row) (fs : List PathS),
      (process_batch_pdfs cfg mcache scanOf rows fs).1.length = rows.length := by
  intro rows
  induction rows with
  | nil => intro fs; rfl
  | cons r rs ih =>
    intro fs
    simp only [process_batch_pdfs, List.length_cons]
    rw [ih]

/-- C5 counterexample: two rows of one batch can share the same staged path
(sanitization collisions make this reachable); the staged file exists when
Stage 2 starts and both rows have a non-empty staged path, yet the second
row ends Stage 2 with no final path because the first row's routing consumed
the file. -/
theorem C5_counterexample_consumed_within_stage :
    ((⟨S "d", [], [], none, [], [], [], [], none, none, [],
        some ⟨S "downloads", S "x", S ".pdf"⟩, none, false, [], []⟩ : Row).temp ≠ none ∧
      (⟨S "downloads", S "x", S ".pdf"⟩ : PathS) ∈
        [(⟨S "downloads", S "x", S ".pdf"⟩ : PathS)]) ∧
    ((process_batch_pdfs ⟨true, false, S "found", S "notfound"⟩ (fun _ => none)
        (fun _ => ⟨false, [], []⟩)
        [⟨S "d", [], [], none, [], [], [], [], none, none, [],
            some ⟨S "downloads", S "x", S ".pdf"⟩, none, false, [], []⟩,
          ⟨S "d", [], [], none, [], [], [], [], none, none, [],
            some ⟨S "downloads", S "x", S ".pdf"⟩, none, false, [], []⟩]
        [⟨S "downloads", S "x", S ".pdf"⟩]).1[1]?.map Row.finalPath) = some none ∧
    ((process_batch_pdfs ⟨true, false, S "found", S "notfound"⟩ (fun _ => none)
        (fun _ => ⟨false, [], []⟩)
        [⟨S "d", [], [], none, [], [], [], [], none, none, [],
            some ⟨S "downloads", S "x", S ".pdf"⟩, none, false, [], []⟩,
          ⟨S "d", [], [], none, [], [], [], [], none, none, [],
            some ⟨S "downloads", S "x", S ".pdf"⟩, none, false, [], []⟩]
        [⟨S "downloads", S "x", S ".pdf"⟩]).1[0]?.map Row.finalPath) =
      some (some ⟨S "notfound", S "x", S ".pdf"⟩) := by decide

/-- C5 (amended): after Stage 2, a row's final path is set iff its staged
path was non-empty and the staged file still existed on disk at the moment
that row was processed within Stage 2 (an earlier row of the same stage may
have consumed it); rows whose staged path is empty are returned entirely
unmodified. -/
theorem C5_amended_stage2_final_path (cfg : S2Cfg) (mcache : PyStr → Option MatchRes)
    (scanOf : PathS → MatchRes) (rows : List Row) (fs : List PathS)
    (hinit : ∀ r ∈ rows, r.finalPath = none) :
    (process_batch_pdfs cfg mcache scanOf rows fs).1.length = rows.length ∧
    ∀ i r, rows[i]? = some r →
      ∃ r', (process_batch_pdfs cfg mcache scanOf rows fs).1[i]? = some r' ∧
        (r.temp = none → r' = r) ∧
        (r'.finalPath.isSome ↔ ∃ p, r.temp = some p ∧ p ∈ fsAt cfg mcache scanOf rows fs i) := by
  refine ⟨process_batch_pdfs_length cfg mcache scanOf rows fs, ?_⟩
  induction rows generalizing fs with
  | nil => intro i r h; simp at h
  | cons r0 rs ih =>
    intro i r h
    cases i with
    | zero =>
      rw [List.getElem?_cons_zero, Option.some.injEq] at h
      subst h
      refine ⟨(stage2_step cfg mcache scanOf fs r0).1, ?_, ?_, ?_⟩
      · simp [process_batch_pdfs]
      · intro htemp
        rw [stage2_step_temp_none cfg mcache scanOf fs r0 htemp]
      · have := stage2_step_final cfg mcache scanOf fs r0 (hinit r0 (by simp))
        simpa [fsAt] using this
    | succ i =>
      rw [List.getElem?_cons_succ] at h
      have hinit2 : ∀ r ∈ rs, r.finalPath = none :=
        fun r hr => hinit r (List.mem_cons_of_mem r0 hr)
      obtain ⟨r', hr', hnone, hiff⟩ :=
        ih ((stage2_step cfg mcache scanOf fs r0).2.1) hinit2 i r h
      refine ⟨r', ?_, hnone, ?_⟩
      · simpa [process_batch_pdfs] using hr'
      · simpa [fsAt] using hiff

/-- C5 witness: the amended theorem on a one-row batch whose staged file
exists. -/
theorem C5_amended_stage2_final_path_witness :
    ∃ r', (process_batch_pdfs ⟨true, false, S "found", S "notfound"⟩ (fun _ => none)
        (fun _ => ⟨false, [], []⟩)
        [⟨S "d", [], [], none, [], [], [], [], none, none, [],
            some ⟨S "downloads", S "x", S ".pdf"⟩, none, false, [], []⟩]
        [⟨S "downloads", S "x", S ".pdf"⟩]).1[0]? = some r' ∧ r'.finalPath.isSome := by
  obtain ⟨r', hr', _, hiff⟩ :=
    (C5_amended_stage2_final_path ⟨true, false, S "found", S "notfound"⟩ (fun _ => none)
      (fun _ => ⟨false, [], []⟩)
      [⟨S "d", [], [], none, [], [], [], [], none, none, [],
          some ⟨S "downloads", S "x", S ".pdf"⟩, none, false, [], []⟩]
      [⟨S "downloads", S "x", S ".pdf"⟩] (by
        intro r hr
        rw [List.mem_singleton] at hr
        subst hr
        rfl)).2 0
      ⟨S "d", [], [], none, [], [], [], [], none, none, [],
        some ⟨S "downloads", S "x", S ".pdf"⟩, none, false, [], []⟩ (by rfl)
  exact ⟨r', hr', hiff.mpr ⟨⟨S "downloads", S "x", S ".pdf"⟩, rfl, by decide⟩⟩

end PdfHarvest

namespace PdfHarvest

lemma prepare_counts_cached (cfg : RunCfg) (orc : Orc) (st : Sys)
    (hen : cfg.cacheEnabled = true) (hfr : cfg.forceRefresh = false)
    (m : MetaVal) (u : UAVal) (hm : st.xref = some m) (hu2 : st.upw = some u) :
    (prepare_one_core cfg orc st).2.2.nXref = 0 ∧
    (prepare_one_core cfg orc st).2.2.nUpw = 0 := by
  unfold prepare_one_core
  simp only [hen, hfr, hm, hu2, Bool.not_false, Bool.and_self]
  constructor <;> rfl

lemma run_state_proj (cfg : RunCfg) (orc : Orc) (st : Sys) :
    (run_once_core cfg orc st).2.1.xref = (prepare_one_core cfg orc st).2.1.xref ∧
    (run_once_core cfg orc st).2.1.upw = (prepare_one_core cfg orc st).2.1.upw ∧
    (run_once_core cfg orc st).2.2.nXref = (prepare_one_core cfg orc st).2.2.nXref ∧
    (run_once_core cfg orc st).2.2.nUpw = (prepare_one_core cfg orc st).2.2.nUpw ∧
    (run_once_core cfg orc st).2.2.nDl = (prepare_one_core cfg orc st).2.2.nDl :=
  ⟨rfl, rfl, rfl, rfl, rfl⟩

lemma prepare_fresh_state (cfg : RunCfg) (orc : Orc)
    (hen : cfg.cacheEnabled = true) (hfr : cfg.forceRefresh = false)
    (mv : MetaVal) (uv : UAVal)
    (hx : orc.crossref = .ok mv) (hu : orc.unpaywall = .ok uv) :
    (prepare_one_core cfg orc ⟨none, none, none, []⟩).2.1.xref = some mv ∧
    (prepare_one_core cfg orc ⟨none, none, none, []⟩).2.1.upw = some uv := by
  unfold prepare_one_core
  simp only [hen, hfr, hx, hu, Bool.not_false, Bool.and_self]
  constructor <;> rfl

lemma run_fresh_no_url (cfg : RunCfg) (orc : Orc)
    (hen : cfg.cacheEnabled = true) (hfr : cfg.forceRefresh = false)
    (mv : MetaVal) (uv : UAVal)
    (hx : orc.crossref = .ok mv) (hu : orc.unpaywall = .ok uv)
    (hurl : best_pdf_url uv = none) :
    (run_once_core cfg orc ⟨none, none, none, []⟩).2.1 = ⟨some mv, some uv, none, []⟩ := by
  unfold run_once_core prepare_one_core stage2_step
  simp [hen, hfr, hx, hu, hurl]

lemma run_fresh_with_url (cfg : RunCfg) (orc : Orc)
    (hen : cfg.cacheEnabled = true) (hfr : cfg.forceRefresh = false)
    (mv : MetaVal) (uv : UAVal) (u : PyStr)
    (hx : orc.crossref = .ok mv) (hu : orc.unpaywall = .ok uv)
    (hurl : best_pdf_url uv = some u) (hdl : orc.dlCore = .okPdf)
    (hdf : cfg.downloadsDir ≠ cfg.foundDir) (hdn : cfg.downloadsDir ≠ cfg.notfoundDir) :
    (run_once_core cfg orc ⟨none, none, none, []⟩).2.1 =
      ⟨some mv, some uv, some orc.scan,
        [⟨if orc.scan.found then cfg.foundDir else cfg.notfoundDir,
          sanitize_filename cfg.doi, S ".pdf"⟩]⟩ ∧
    (run_once_core cfg orc ⟨none, none, none, []⟩).1.finalPath =
      some ⟨if orc.scan.found then cfg.foundDir else cfg.notfoundDir,
        sanitize_filename cfg.doi, S ".pdf"⟩ := by
  by_cases hfound : orc.scan.found = true
  · constructor <;>
    · unfold run_once_core prepare_one_core stage2_step move_pdf_atomic insertPath
      simp [hen, hfr, hx, hu, hurl, hdl, hfound, Ne.symm hdf, Ne.symm hdn, PathS.mk.injEq]
  · constructor <;>
    · unfold run_once_core prepare_one_core stage2_step move_pdf_atomic insertPath
      simp [hen, hfr, hx, hu, hurl, hdl, hfound, Ne.symm hdf, Ne.symm hdn, PathS.mk.injEq]

lemma run_second_with_url (cfg : RunCfg) (orc : Orc)
    (hen : cfg.cacheEnabled = true) (hfr : cfg.forceRefresh = false)
    (mv : MetaVal) (uv : UAVal) (u : PyStr)
    (hx : orc.crossref = .ok mv) (hu : orc.unpaywall = .ok uv)
    (hurl : best_pdf_url uv = some u) (hdl : orc.dlCore = .okPdf)
    (hdf : cfg.downloadsDir ≠ cfg.foundDir) (hdn : cfg.downloadsDir ≠ cfg.notfoundDir) :
    (run_once_core cfg orc
      ⟨some mv, some uv, some orc.scan,
        [⟨if orc.scan.found then cfg.foundDir else cfg.notfoundDir,
          sanitize_filename cfg.doi, S ".pdf"⟩]⟩).2.2.nDl = 1 ∧
    (run_once_core cfg orc
      ⟨some mv, some uv, some orc.scan,
        [⟨if orc.scan.found then cfg.foundDir else cfg.notfoundDir,
          sanitize_filename cfg.doi, S ".pdf"⟩]⟩).2.2.nScan = 0 ∧
    (run_once_core cfg orc
      ⟨some mv, some uv, some orc.scan,
        [⟨if orc.scan.found then cfg.foundDir else cfg.notfoundDir,
          sanitize_filename cfg.doi, S ".pdf"⟩]⟩).1.finalPath =
      some ⟨if orc.scan.found then cfg.foundDir else cfg.notfoundDir,
        sanitize_filename cfg.doi ++ 95 :: natChars 1, S ".pdf"⟩ := by
  by_cases hfound : orc.scan.found = true
  · refine ⟨?_, ?_, ?_⟩ <;>
    · unfold run_once_core prepare_one_core stage2_step move_pdf_atomic insertPath candName
      simp [hen, hfr, hx, hu, hurl, hdl, hfound, hdf, hdn, Ne.symm hdf, Ne.symm hdn,
        PathS.mk.injEq, findFree, candName, List.append_right_eq_self]
  · refine ⟨?_, ?_, ?_⟩ <;>
    · unfold run_once_core prepare_one_core stage2_step move_pdf_atomic insertPath candName
      simp [hen, hfr, hx, hu, hurl, hdl, hfound, hdf, hdn, Ne.symm hdf, Ne.symm hdn,
        PathS.mk.injEq, findFree, candName, List.append_right_eq_self]

/-- C6 counterexample: a second run over the same single identifier with a
populated cache re-invokes the PDF download (the staged file was routed away
by run 1) and produces a different row — the routed file gets a collision
suffix — refuting both "no network fetch … is invoked" and "result rows
identical". -/
theorem C6_counterexample_second_run_downloads :
    (run_once_core ⟨S "d1", true, false, S "downloads", S "found", S "notfound"⟩
      ⟨.ok (.doc ⟨[S "T"], [], none, [], [], [], []⟩),
        .ok (.doc ⟨some true, some ⟨some (S "u"), none, none⟩, []⟩),
        .okPdf, true, ⟨false, [], []⟩⟩
      ⟨none, none, none, []⟩).2.2 = ⟨1, 1, 1, 1⟩ ∧
    (run_once_core ⟨S "d1", true, false, S "downloads", S "found", S "notfound"⟩
      ⟨.ok (.doc ⟨[S "T"], [], none, [], [], [], []⟩),
        .ok (.doc ⟨some true, some ⟨some (S "u"), none, none⟩, []⟩),
        .okPdf, true, ⟨false, [], []⟩⟩
      (run_once_core ⟨S "d1", true, false, S "downloads", S "found", S "notfound"⟩
        ⟨.ok (.doc ⟨[S "T"], [], none, [], [], [], []⟩),
          .ok (.doc ⟨some true, some ⟨some (S "u"), none, none⟩, []⟩),
          .okPdf, true, ⟨false, [], []⟩⟩
        ⟨none, none, none, []⟩).2.1).2.2.nDl = 1 ∧
    (run_once_core ⟨S "d1", true, false, S "downloads", S "found", S "notfound"⟩
      ⟨.ok (.doc ⟨[S "T"], [], none, [], [], [], []⟩),
        .ok (.doc ⟨some true, some ⟨some (S "u"), none, none⟩, []⟩),
        .okPdf, true, ⟨false, [], []⟩⟩
      (run_once_core ⟨S "d1", true, false, S "downloads", S "found", S "notfound"⟩
        ⟨.ok (.doc ⟨[S "T"], [], none, [], [], [], []⟩),
          .ok (.doc ⟨some true, some ⟨some (S "u"), none, none⟩, []⟩),
          .okPdf, true, ⟨false, [], []⟩⟩
        ⟨none, none, none, []⟩).2.1).1 ≠
      (run_once_core ⟨S "d1", true, false, S "downloads", S "found", S "notfound"⟩
        ⟨.ok (.doc ⟨[S "T"], [], none, [], [], [], []⟩),
          .ok (.doc ⟨some true, some ⟨some (S "u"), none, none⟩, []⟩),
          .okPdf, true, ⟨false, [], []⟩⟩
        ⟨none, none, none, []⟩).1 := by
  refine ⟨by decide, by decide, by decide⟩

/-- C6 (amended): for a single-identifier run with caching enabled and no
force-refresh, after a first run whose metadata and open-access fetches
succeeded, the second run re-invokes no metadata fetch, no open-access
fetch (a cached empty document counts as a hit in the batch script), and no
PDF scan; when no PDF URL is selected the second run's row is identical and
no download happens, but when a URL is present and downloads succeed, the
second run downloads the PDF again and routes it to a collision-suffixed
final path, so the rows differ.  In the packaged orchestrator, an
identifier whose cached document is empty is refetched. -/
theorem C6_amended_rerun_caching (cfg : RunCfg) (orc : Orc)
    (hen : cfg.cacheEnabled = true) (hfr : cfg.forceRefresh = false)
    (mv : MetaVal) (uv : UAVal)
    (hx : orc.crossref = .ok mv) (hu : orc.unpaywall = .ok uv)
    (hdf : cfg.downloadsDir ≠ cfg.foundDir) (hdn : cfg.downloadsDir ≠ cfg.notfoundDir) :
    ((run_once_core cfg orc (run_once_core cfg orc ⟨none, none, none, []⟩).2.1).2.2.nXref = 0 ∧
     (run_once_core cfg orc (run_once_core cfg orc ⟨none, none, none, []⟩).2.1).2.2.nUpw = 0) ∧
    (best_pdf_url uv = none →
      (run_once_core cfg orc (run_once_core cfg orc ⟨none, none, none, []⟩).2.1).1 =
        (run_once_core cfg orc ⟨none, none, none, []⟩).1 ∧
      (run_once_core cfg orc (run_once_core cfg orc ⟨none, none, none, []⟩).2.1).2.2.nDl = 0 ∧
      (run_once_core cfg orc (run_once_core cfg orc ⟨none, none, none, []⟩).2.1).2.2.nScan = 0) ∧
    (∀ u, best_pdf_url uv = some u → orc.dlCore = .okPdf →
      (run_once_core cfg orc (run_once_core cfg orc ⟨none, none, none, []⟩).2.1).2.2.nDl = 1 ∧
      (run_once_core cfg orc (run_once_core cfg orc ⟨none, none, none, []⟩).2.1).2.2.nScan = 0 ∧
      (run_once_core cfg orc (run_once_core cfg orc ⟨none, none, none, []⟩).2.1).1.finalPath ≠
        (run_once_core cfg orc ⟨none, none, none, []⟩).1.finalPath) ∧
    (∀ st : Sys, st.xref = some .emptyDoc → (prepare_one_orch cfg orc st).2.2.nXref = 1) := by
  have hx1 : (run_once_core cfg orc ⟨none, none, none, []⟩).2.1.xref = some mv := by
    rw [(run_state_proj cfg orc ⟨none, none, none, []⟩).1]
    exact (prepare_fresh_state cfg orc hen hfr mv uv hx hu).1
  have hu1 : (run_once_core cfg orc ⟨none, none, none, []⟩).2.1.upw = some uv := by
    rw [(run_state_proj cfg orc ⟨none, none, none, []⟩).2.1]
    exact (prepare_fresh_state cfg orc hen hfr mv uv hx hu).2
  refine ⟨⟨?_, ?_⟩, ?_, ?_, ?_⟩
  · rw [(run_state_proj cfg orc _).2.2.1]
    exact (prepare_counts_cached cfg orc _ hen hfr mv uv hx1 hu1).1
  · rw [(run_state_proj cfg orc _).2.2.2.1]
    exact (prepare_counts_cached cfg orc _ hen hfr mv uv hx1 hu1).2
  · intro hurl
    rw [run_fresh_no_url cfg orc hen hfr mv uv hx hu hurl]
    refine ⟨?_, ?_, ?_⟩ <;>
    · unfold run_once_core prepare_one_core stage2_step
      simp [hen, hfr, hx, hu, hurl]
  · intro u hurl hdl
    have h1 := run_fresh_with_url cfg orc hen hfr mv uv u hx hu hurl hdl hdf hdn
    have h2 := run_second_with_url cfg orc hen hfr mv uv u hx hu hurl hdl hdf hdn
    rw [h1.1]
    refine ⟨h2.1, h2.2.1, ?_⟩
    rw [h2.2.2, h1.2]
    simp [PathS.mk.injEq, List.append_right_eq_self]
  · intro st hst
    unfold prepare_one_orch
    simp [hst]

/-- C6 witness: the amended theorem at a concrete configuration and
oracle. -/
theorem C6_amended_rerun_caching_witness :
    (run_once_core ⟨S "d1", true, false, S "downloads", S "found", S "notfound"⟩
      ⟨.ok (.doc ⟨[S "T"], [], none, [], [], [], []⟩),
        .ok (.doc ⟨some true, some ⟨some (S "u"), none, none⟩, []⟩),
        .okPdf, true, ⟨false, [], []⟩⟩
      (run_once_core ⟨S "d1", true, false, S "downloads", S "found", S "notfound"⟩
        ⟨.ok (.doc ⟨[S "T"], [], none, [], [], [], []⟩),
          .ok (.doc ⟨some true, some ⟨some (S "u"), none, none⟩, []⟩),
          .okPdf, true, ⟨false, [], []⟩⟩
        ⟨none, none, none, []⟩).2.1).2.2.nXref = 0 :=
  (C6_amended_rerun_caching ⟨S "d1", true, false, S "downloads", S "found", S "notfound"⟩
    ⟨.ok (.doc ⟨[S "T"], [], none, [], [], [], []⟩),
      .ok (.doc ⟨some true, some ⟨some (S "u"), none, none⟩, []⟩),
      .okPdf, true, ⟨false, [], []⟩⟩
    rfl rfl (.doc ⟨[S "T"], [], none, [], [], [], []⟩)
    (.doc ⟨some true, some ⟨some (S "u"), none, none⟩, []⟩) rfl rfl
    (by decide) (by decide)).1.1

end PdfHarvest
